import Mathlib

/-!
file_storage: a content-addressed blob store behind a per-client admission layer.

A shallow embedding of the Go sources `internal/config`, `internal/models`,
`internal/utils`, `internal/storage` and `internal/handler`, followed by the
properties established about them.

Conventions of the embedding
* a Go `string` is a byte sequence: it is a `List Char` whose characters stand for bytes;
* `int64` and `int` values are integers, every arithmetic result goes through `wrap64`;
* `sync.Map` is an association list, `Range` visits it in list order (Go leaves the
  order unspecified, so a statement over all lists covers every order);
* the disk is an association list from cleaned path to file content;
* I/O failures are inputs (`Faults`), as is the clock;
* a goroutine that waits for a mutex nobody will release is reported as `blocked`;
* a run-time panic (slice bounds out of range) is reported as such, the state keeps
  what was done before it.
-/

set_option maxRecDepth 100000

namespace FileStorage

/-! ## Strings, bytes and machine integers -/


/-- Go strings are byte sequences; a character of the model stands for one byte. -/
abbrev Str := List Char

/-- Byte payloads; every element is a natural number below 256. -/
abbrev Bytes := List Nat

def mask32 (x : Nat) : Nat := x % 4294967296

def rotl32 (x n : Nat) : Nat := mask32 (x <<< n) ||| (x >>> (32 - n))

def rotr32 (x n : Nat) : Nat := (x >>> n) ||| mask32 (x <<< (32 - n))

def not32 (x : Nat) : Nat := 4294967295 - x

def hexDigit (n : Nat) : Char := "0123456789abcdef".toList.getD n '0'

/-- Two lowercase hexadecimal digits per byte, as `hex.EncodeToString` writes them. -/
def hexEncode (bs : Bytes) : Str := bs.flatMap (fun b => [hexDigit (b / 16 % 16), hexDigit (b % 16)])

def beBytes (n : Nat) (w : Nat) : Bytes := (List.range n).map (fun i => (w >>> (8 * (n - 1 - i))) % 256)

def leBytes (n : Nat) (w : Nat) : Bytes := (List.range n).map (fun i => (w >>> (8 * i)) % 256)

def beWords : Bytes → List Nat
  | a :: b :: c :: d :: r => (a * 16777216 + b * 65536 + c * 256 + d) :: beWords r
  | _ => []

def leWords : Bytes → List Nat
  | a :: b :: c :: d :: r => (d * 16777216 + c * 65536 + b * 256 + a) :: leWords r
  | _ => []

def blocks : Nat → List Nat → List (List Nat)
  | 0, _ => []
  | n + 1, ws => if ws = [] then [] else ws.take 16 :: blocks n (ws.drop 16)

def padZeros (l : Nat) : Bytes := List.replicate ((119 - l % 64) % 64) 0

/-! ### SHA-256 (FIPS 180-4) -/

def sha256K : List Nat := [
 0x428a2f98,0x71374491,0xb5c0fbcf,0xe9b5dba5,0x3956c25b,0x59f111f1,0x923f82a4,0xab1c5ed5,
 0xd807aa98,0x12835b01,0x243185be,0x550c7dc3,0x72be5d74,0x80deb1fe,0x9bdc06a7,0xc19bf174,
 0xe49b69c1,0xefbe4786,0x0fc19dc6,0x240ca1cc,0x2de92c6f,0x4a7484aa,0x5cb0a9dc,0x76f988da,
 0x983e5152,0xa831c66d,0xb00327c8,0xbf597fc7,0xc6e00bf3,0xd5a79147,0x06ca6351,0x14292967,
 0x27b70a85,0x2e1b2138,0x4d2c6dfc,0x53380d13,0x650a7354,0x766a0abb,0x81c2c92e,0x92722c85,
 0xa2bfe8a1,0xa81a664b,0xc24b8b70,0xc76c51a3,0xd192e819,0xd6990624,0xf40e3585,0x106aa070,
 0x19a4c116,0x1e376c08,0x2748774c,0x34b0bcb5,0x391c0cb3,0x4ed8aa4a,0x5b9cca4f,0x682e6ff3,
 0x748f82ee,0x78a5636f,0x84c87814,0x8cc70208,0x90befffa,0xa4506ceb,0xbef9a3f7,0xc67178f2]

/-- Message schedule, newest word first. -/
def sha256Sched : Nat → List Nat → List Nat
  | 0, w => w
  | n + 1, w =>
    let w2 := w.getD 1 0
    let w15 := w.getD 14 0
    let s0 := rotr32 w15 7 ^^^ rotr32 w15 18 ^^^ (w15 >>> 3)
    let s1 := rotr32 w2 17 ^^^ rotr32 w2 19 ^^^ (w2 >>> 10)
    sha256Sched n (mask32 (w.getD 15 0 + s0 + w.getD 6 0 + s1) :: w)

def sha256Round (s : List Nat) (kw : Nat × Nat) : List Nat :=
  match s with
  | [a, b, c, d, e, f, g, h] =>
    let t1 := mask32 (h + (rotr32 e 6 ^^^ rotr32 e 11 ^^^ rotr32 e 25)
      + ((e &&& f) ^^^ (not32 e &&& g)) + kw.1 + kw.2)
    let t2 := mask32 ((rotr32 a 2 ^^^ rotr32 a 13 ^^^ rotr32 a 22)
      + ((a &&& b) ^^^ (a &&& c) ^^^ (b &&& c)))
    [mask32 (t1 + t2), a, b, c, mask32 (d + t1), e, f, g]
  | _ => s

def sha256Block (h : List Nat) (blk : List Nat) : List Nat :=
  List.zipWith (fun x y => mask32 (x + y)) h
    ((sha256K.zip (sha256Sched 48 blk.reverse).reverse).foldl sha256Round h)

def sha256Sum (msg : Bytes) : Bytes :=
  let ws := beWords (msg ++ [128] ++ padZeros msg.length ++ beBytes 8 (8 * msg.length))
  ((blocks ws.length ws).foldl sha256Block
    [0x6a09e667,0xbb67ae85,0x3c6ef372,0xa54ff53a,0x510e527f,0x9b05688c,0x1f83d9ab,0x5be0cd19]).flatMap
    (beBytes 4)

/-! ### SHA-1 -/

def sha1Sched : Nat → List Nat → List Nat
  | 0, w => w
  | n + 1, w =>
    sha1Sched n (rotl32 (w.getD 2 0 ^^^ w.getD 7 0 ^^^ w.getD 13 0 ^^^ w.getD 15 0) 1 :: w)

def sha1Round (s : List Nat) (tw : Nat × Nat) : List Nat :=
  match s with
  | [a, b, c, d, e] =>
    let t := tw.1
    let fk : Nat × Nat :=
      if t < 20 then ((b &&& c) ||| (not32 b &&& d), 0x5a827999)
      else if t < 40 then (b ^^^ c ^^^ d, 0x6ed9eba1)
      else if t < 60 then ((b &&& c) ||| (b &&& d) ||| (c &&& d), 0x8f1bbcdc)
      else (b ^^^ c ^^^ d, 0xca62c1d6)
    [mask32 (rotl32 a 5 + fk.1 + e + fk.2 + tw.2), a, rotl32 b 30, c, d]
  | _ => s

def sha1Block (h : List Nat) (blk : List Nat) : List Nat :=
  List.zipWith (fun x y => mask32 (x + y)) h
    (((List.range 80).zip (sha1Sched 64 blk.reverse).reverse).foldl sha1Round h)

def sha1Sum (msg : Bytes) : Bytes :=
  let ws := beWords (msg ++ [128] ++ padZeros msg.length ++ beBytes 8 (8 * msg.length))
  ((blocks ws.length ws).foldl sha1Block
    [0x67452301, 0xefcdab89, 0x98badcfe, 0x10325476, 0xc3d2e1f0]).flatMap (beBytes 4)

/-! ### MD5 (RFC 1321) -/

def md5K : List Nat := [
 0xd76aa478,0xe8c7b756,0x242070db,0xc1bdceee,0xf57c0faf,0x4787c62a,0xa8304613,0xfd469501,
 0x698098d8,0x8b44f7af,0xffff5bb1,0x895cd7be,0x6b901122,0xfd987193,0xa679438e,0x49b40821,
 0xf61e2562,0xc040b340,0x265e5a51,0xe9b6c7aa,0xd62f105d,0x02441453,0xd8a1e681,0xe7d3fbc8,
 0x21e1cde6,0xc33707d6,0xf4d50d87,0x455a14ed,0xa9e3e905,0xfcefa3f8,0x676f02d9,0x8d2a4c8a,
 0xfffa3942,0x8771f681,0x6d9d6122,0xfde5380c,0xa4beea44,0x4bdecfa9,0xf6bb4b60,0xbebfbc70,
 0x289b7ec6,0xeaa127fa,0xd4ef3085,0x04881d05,0xd9d4d039,0xe6db99e5,0x1fa27cf8,0xc4ac5665,
 0xf4292244,0x432aff97,0xab9423a7,0xfc93a039,0x655b59c3,0x8f0ccc92,0xffeff47d,0x85845dd1,
 0x6fa87e4f,0xfe2ce6e0,0xa3014314,0x4e0811a1,0xf7537e82,0xbd3af235,0x2ad7d2bb,0xeb86d391]

def md5S : List Nat := [
 7,12,17,22,7,12,17,22,7,12,17,22,7,12,17,22,
 5,9,14,20,5,9,14,20,5,9,14,20,5,9,14,20,
 4,11,16,23,4,11,16,23,4,11,16,23,4,11,16,23,
 6,10,15,21,6,10,15,21,6,10,15,21,6,10,15,21]

def md5Round (m : List Nat) (s : List Nat) (i : Nat) : List Nat :=
  match s with
  | [a, b, c, d] =>
    let fg : Nat × Nat :=
      if i < 16 then ((b &&& c) ||| (not32 b &&& d), i)
      else if i < 32 then ((d &&& b) ||| (not32 d &&& c), (5 * i + 1) % 16)
      else if i < 48 then (b ^^^ c ^^^ d, (3 * i + 5) % 16)
      else (c ^^^ (b ||| not32 d), (7 * i) % 16)
    [d, mask32 (b + rotl32 (mask32 (fg.1 + a + md5K.getD i 0 + m.getD fg.2 0)) (md5S.getD i 0)), b, c]
  | _ => s

def md5Block (h : List Nat) (blk : List Nat) : List Nat :=
  List.zipWith (fun x y => mask32 (x + y)) h ((List.range 64).foldl (md5Round blk) h)

def md5Sum (msg : Bytes) : Bytes :=
  let ws := leWords (msg ++ [128] ++ padZeros msg.length ++ leBytes 8 (8 * msg.length))
  ((blocks ws.length ws).foldl md5Block
    [0x67452301, 0xefcdab89, 0x98badcfe, 0x10325476]).flatMap (leBytes 4)


/-- Two-complement wrap-around of Go's `int64` (and of `int` on 64-bit targets). -/
def wrap64 (x : Int) : Int :=
  (x + 9223372036854775808) % 18446744073709551616 - 9223372036854775808

/-! ## `path/filepath` on Unix -/

/-- Split at every `/`. -/
def splitSlash : Str → List Str
  | [] => [[]]
  | c :: cs =>
    match splitSlash cs with
    | [] => [[c]]
    | hd :: tl => if c = '/' then [] :: hd :: tl else (c :: hd) :: tl

/-- One path element of `Clean`; the elements kept so far are held newest first. -/
def cleanStep (rooted : Bool) (kept : List Str) (el : Str) : List Str :=
  if el = [] ∨ el = ['.'] then kept
  else if el = ['.', '.'] then
    match kept with
    | [] => if rooted then [] else [el]
    | top :: rest => if top = ['.', '.'] then el :: kept else rest
  else el :: kept

/-- Lexical cleaning of `filepath.Clean`: repeated separators collapse, `.` elements go,
an inner `..` removes the element before it, `..` at the root goes, the empty result is `.`. -/
def Clean (p : Str) : Str :=
  let rooted := p.head? = some '/'
  let body := ['/'].intercalate ((splitSlash p).foldl (cleanStep rooted) []).reverse
  let out := (if rooted then ['/'] else []) ++ body
  if out = [] then ['.'] else out

/-- Model of `filepath.Join`: from the first non-empty element on, the elements are joined
by `/` and the result is cleaned; with no non-empty element the result is empty. -/
def Join : List Str → Str
  | [] => []
  | e :: es => if e = [] then Join es else Clean (['/'].intercalate (e :: es))

/-- Go's `s[0:2]`; `none` is the run-time panic for a string shorter than two bytes. -/
def slice02 (s : Str) : Option Str := if 2 ≤ s.length then some (s.take 2) else none

/-! ## `sync.Map` -/

namespace SyncMap

/-- Value stored under key `k`, if any. -/
def Load {β : Type} : List (Str × β) → Str → Option β
  | [], _ => none
  | (k', v) :: r, k => if k' = k then some v else Load r k

/-- Set the value of key `k`: an existing entry is replaced, a new one is added. -/
def Store {β : Type} : List (Str × β) → Str → β → List (Str × β)
  | [], k, v => [(k, v)]
  | (k', v') :: r, k, v => if k' = k then (k, v) :: r else (k', v') :: Store r k v

/-- Remove the entry of key `k`. -/
def Delete {β : Type} (m : List (Str × β)) (k : Str) : List (Str × β) :=
  m.filter (fun e => decide (e.1 ≠ k))

end SyncMap

/-! ## internal/config -/

def BaseStoragePath : Str := "./store".toList
/-- The constant `10 << 20`. -/
def MaxUploadSize : Int := 10485760
/-- The constant `10 << 30`. -/
def MaxStorageSize : Int := 10737418240
def MaxConnectionsPerIP : Int := 10
/-- The constant `50 << 20`. -/
def MaxUploadBytesPerIP : Int := 52428800
/-- The constant `100 << 20`. -/
def MaxDownloadBytesPerIP : Int := 104857600
/-- The constant `10 << 20`. -/
def MaxDeleteBytesPerIP : Int := 10485760
def RequestsPerSecond : Nat := 5
/-- The constant `1 << 10`. -/
def MaxDownloadSize : Int := 1024
/-- The constant `1 << 9`. -/
def DeleteSize : Int := 512

/-! ## internal/models -/

structure FileMetadata where
  FileName : Str
  Size : Int
  UploadedAt : Nat
  DownloadCount : Int
  Deleted : Bool
deriving DecidableEq, Repr

/-- The global `MetadataStore`, keyed by digest. -/
abbrev MetaMap := List (Str × FileMetadata)

/-! ## The disk and the failures the environment may inject -/

/-- Regular files by cleaned path. -/
abbrev Disk := List (Str × Bytes)

inductive OsError
  | notExist
  | other
deriving DecidableEq, Repr

/-- Failures of the environment during one request. -/
structure Faults where
  /-- `os.Remove` of this path fails with an error other than `ErrNotExist`. -/
  removeErr : Str → Bool
  /-- `os.Open` of this path fails with an error other than `ErrNotExist`. -/
  openErr : Str → Bool
  /-- `os.MkdirAll` fails. -/
  mkdirErr : Bool
  /-- `os.Create` fails. -/
  createErr : Bool
  /-- `io.Copy` into the new blob fails after this many bytes. -/
  writeErr : Option Nat
  /-- Reading the uploaded multipart file fails. -/
  bufferErr : Bool
  /-- Reading the opened blob fails. -/
  blobReadErr : Bool
  /-- `file.Seek` fails. -/
  seekErr : Bool
  /-- Every Redis command of the request fails. -/
  redisErr : Bool

/-- An environment without failures. -/
def noFaults : Faults :=
  ⟨fun _ => false, fun _ => false, false, false, none, false, false, false, false⟩

def osRemove (f : Faults) (d : Disk) (p : Str) : Except OsError Disk :=
  if f.removeErr p then .error .other
  else match SyncMap.Load d p with
    | none => .error .notExist
    | some _ => .ok (SyncMap.Delete d p)

def osOpen (f : Faults) (d : Disk) (p : Str) : Except OsError Bytes :=
  if f.openErr p then .error .other
  else match SyncMap.Load d p with
    | none => .error .notExist
    | some b => .ok b

/-! ## internal/utils -/

/-- The function `HashFile`: lowercase hexadecimal SHA-256 of the whole content. Reading
from memory cannot fail; a failing reader is handled where the function is called. -/
def HashFile (file : Bytes) : Str := hexEncode (sha256Sum file)

/-- The function `CalculateHash` over an in-memory reader. For a name outside the three
cases the Go code calls `io.Copy` on a nil writer and panics: `none`. -/
def CalculateHash (reader : Bytes) (algorithm : Str) : Option Str :=
  if algorithm = "md5".toList then some (hexEncode (md5Sum reader))
  else if algorithm = "sha1".toList then some (hexEncode (sha1Sum reader))
  else if algorithm = "sha256".toList then some (hexEncode (sha256Sum reader))
  else none

/-! ## internal/storage -/

inductive Exit
  | ok
  | err
  | panic
deriving DecidableEq, Repr

/-- Path of the blob of a digest, `filepath.Join(BaseStoragePath, hash[0:2], hash)`. -/
def blobPath (hash : Str) : Option Str :=
  (slice02 hash).map (fun p => Join [BaseStoragePath, p, hash])

/-- The function `SaveFile`. An existing blob is truncated by `os.Create`; when the copy
fails the bytes written so far stay on disk. -/
def SaveFile (f : Faults) (d : Disk) (hash : Str) (file : Bytes) : Exit × Disk :=
  match slice02 hash with
  | none => (.panic, d)
  | some p =>
    let dir := Join [BaseStoragePath, p]
    if f.mkdirErr then (.err, d)
    else
      let filePath := Join [dir, hash]
      if f.createErr then (.err, d)
      else match f.writeErr with
        | some n => (.err, SyncMap.Store d filePath (file.take n))
        | none => (.ok, SyncMap.Store d filePath file)

/-- Lines that `CleanupStorage` writes to the log. -/
inductive LogLine
  /-- The line "Failed to delete file". -/
  | failedDelete (hash : Str)
  /-- The line "Failed to mark file as deleted in Redis". -/
  | failedMark (hash : Str)
  /-- The line "Deleted file ... to free up space". -/
  | deleted (hash : Str)
deriving DecidableEq, Repr

/-- Element of the slice `files` of `CleanupStorage`. -/
structure FileInfo where
  Hash : Str
  Size : Int
  UsageCount : Int
deriving DecidableEq, Repr

/-- State of `CleanupStorage`: its local `totalSize`, the shared metadata and disk, the log
lines written, and how it ended. -/
structure Cleanup where
  exit : Exit
  totalSize : Int
  store : MetaMap
  disk : Disk
  log : List LogLine
deriving DecidableEq, Repr

/-- The `Range` callback of `CleanupStorage`, folded over the map. -/
def rangeFiles (m : MetaMap) : Int × List FileInfo :=
  m.foldl (fun acc e => (wrap64 (acc.1 + e.2.Size), acc.2 ++ [⟨e.1, e.2.Size, e.2.DownloadCount⟩]))
    (0, [])

/-- Order of `sort.Slice` with `less = files[i].UsageCount < files[j].UsageCount`. -/
def usageLE (a b : FileInfo) : Prop := a.UsageCount ≤ b.UsageCount

instance : DecidableRel usageLE := fun a b => inferInstanceAs (Decidable (a.UsageCount ≤ b.UsageCount))

instance : IsTotal FileInfo usageLE := ⟨fun a b => Int.le_total a.UsageCount b.UsageCount⟩

instance : IsTrans FileInfo usageLE := ⟨fun _ _ _ h1 h2 => Int.le_trans h1 h2⟩

/-- The call `sort.Slice(files, less)`: an ascending arrangement of the slice. Go does not
fix the order of equal keys; here entries of equal count keep the order of `Range`. -/
def sortSlice (files : List FileInfo) : List FileInfo := files.insertionSort usageLE

/-- The eviction loop `for _, file := range files`. The log lines are those written from
this point on. -/
def evictLoop (f : Faults) (maxSize : Int) : List FileInfo → Int → MetaMap → Disk → Cleanup
  | [], totalSize, store, disk => ⟨.ok, totalSize, store, disk, []⟩
  | file :: rest, totalSize, store, disk =>
    if totalSize ≤ maxSize then ⟨.ok, totalSize, store, disk, []⟩
    else match blobPath file.Hash with
      | none => ⟨.panic, totalSize, store, disk, []⟩
      | some filePath =>
        match osRemove f disk filePath with
        | .error _ =>
          let r := evictLoop f maxSize rest totalSize store disk
          { r with log := .failedDelete file.Hash :: r.log }
        | .ok disk1 =>
          let r := evictLoop f maxSize rest (wrap64 (totalSize - file.Size))
            (SyncMap.Delete store file.Hash) disk1
          { r with log := (if f.redisErr then [.failedMark file.Hash] else [])
              ++ .deleted file.Hash :: r.log }

/-- The function `CleanupStorage`. `exit = ok` is the return `(true, nil)`, `exit = err` the
return `(false, error)`. -/
def CleanupStorage (f : Faults) (maxSize : Int) (store : MetaMap) (disk : Disk) : Cleanup :=
  let tf := rangeFiles store
  if tf.1 ≤ maxSize then ⟨.ok, tf.1, store, disk, []⟩
  else
    let r := evictLoop f maxSize (sortSlice tf.2) tf.1 store disk
    if r.exit = .panic then r
    else if r.totalSize > maxSize then { r with exit := .err }
    else r

/-! ## internal/handler: requests, responses and the shared state -/

/-- The multipart part named `file`: `header.Filename`, and the content whose length is
`header.Size`. -/
structure FormFile where
  Filename : Str
  content : Bytes
deriving DecidableEq, Repr

/-- What the handlers read of an `http.Request`. -/
structure Request where
  RemoteAddr : Str
  Method : Str
  /-- The field `r.URL.Path`. -/
  Path : Str
  /-- The declared length; `-1` when unknown. -/
  ContentLength : Int
  /-- Number of bytes the body really holds. -/
  bodySize : Nat
  /-- The value `r.URL.Query().Get("hash")`. -/
  hash : Str
  /-- The part `r.FormFile("file")` of a body parsed without limit. -/
  file : Option FormFile
  /-- The value `r.FormValue("md5")`. -/
  md5 : Str
  /-- The value `r.FormValue("sha1")`. -/
  sha1 : Str
  /-- The value `r.FormValue("sha256")`. -/
  sha256 : Str
deriving DecidableEq, Repr

inductive Response
  /-- First status code written, and the blob bytes `http.ServeFile` sent, if any. -/
  | http (status : Nat) (blob : Option Bytes)
  /-- The handler panicked; the server drops the connection. -/
  | panic
  /-- The goroutine waits for a mutex that is never released. -/
  | blocked
deriving DecidableEq, Repr

/-- Per-client record `IPStats`. `RateLimiter` is the number of tokens the token bucket holds
now (refill with time is an action of the environment); `mu` tells whether the mutex is held. -/
structure IPStats where
  Connections : Int
  UploadBytes : Int
  DownloadBytes : Int
  DeleteBytes : Int
  RateLimiter : Nat
  mu : Bool
deriving DecidableEq, Repr

/-- Package-level state of the process. `uploadSemaphore` is the weight held now, of
capacity 10. `callbacksSet` tells whether the four callback variables have been assigned
by `SetupCallbacks`; they are nil otherwise. -/
structure Server where
  MetadataStore : MetaMap
  disk : Disk
  uploadSemaphore : Nat
  ipStats : List (Str × IPStats)
  callbacksSet : Bool
deriving DecidableEq, Repr

/-- The call `uploadSemaphore.TryAcquire(1)` on a semaphore of `NewWeighted(10)`. The
deferred `Release(1)` gives the slot back when the handler returns, so the weight held is
the same before and after a handler. -/
def tryAcquire (s : Server) : Bool := decide (s.uploadSemaphore + 1 ≤ 10)

/-! ## internal/handler: callbacks -/

/-- The pre-upload callback assigned by `SetupCallbacks`; the result is the Go `error`,
`none` for nil. `CalculateHash` is called with the three names it knows. -/
def preUploadCallback (f : Faults) (r : Request) : Option String :=
  match r.file with
  | none => some "http: no such file"
  | some file =>
    if f.bufferErr then some "failed to read file contents"
    else if r.md5 ≠ [] ∧ CalculateHash file.content "md5".toList ≠ some r.md5 then
      some "MD5 hash does not match"
    else if r.sha1 ≠ [] ∧ CalculateHash file.content "sha1".toList ≠ some r.sha1 then
      some "SHA1 hash does not match"
    else if r.sha256 ≠ [] ∧ CalculateHash file.content "sha256".toList ≠ some r.sha256 then
      some "SHA256 hash does not match"
    else none

/-- The post-upload callback assigned by `SetupCallbacks`: it logs and returns nil. -/
def postUploadCallback (_hash : Str) (_metadata : FileMetadata) : Option String := none

/-- The pre-download callback assigned by `SetupCallbacks`. -/
def preDownloadCallback (f : Faults) (hash : Str) (file : Bytes) : Option String :=
  if f.blobReadErr then some "failed to calculate file hash"
  else if HashFile file ≠ hash then some "integrity check failed"
  else if f.seekErr then some "failed to reset file pointer"
  else none

/-- The function `SetupCallbacks`. -/
def SetupCallbacks (s : Server) : Server := { s with callbacksSet := true }

/-! ## internal/handler: handlers -/

/-- The function `handleUpload`; `now` is `time.Now()`. Without the callback the body is
parsed under `http.MaxBytesReader`; with it the callback has parsed the body before. -/
def handleUpload (now : Nat) (f : Faults) (r : Request) (s : Server) : Response × Server :=
  let c := CleanupStorage f MaxStorageSize s.MetadataStore s.disk
  let s1 := { s with MetadataStore := c.store, disk := c.disk }
  match c.exit with
  | .panic => (.panic, s1)
  | .err => (.http 500 none, s1)
  | .ok =>
    if ¬ tryAcquire s1 then (.http 429 none, s1)
    else if s1.callbacksSet ∧ (preUploadCallback f r).isSome then (.http 500 none, s1)
    else if ¬ s1.callbacksSet ∧ MaxUploadSize < r.bodySize then (.http 400 none, s1)
    else match r.file with
      | none => (.http 400 none, s1)
      | some file =>
        if f.bufferErr then (.http 500 none, s1)
        else
          let hash := HashFile file.content
          match SaveFile f s1.disk hash file.content with
          | (.panic, disk1) => (.panic, { s1 with disk := disk1 })
          | (.err, disk1) => (.http 500 none, { s1 with disk := disk1 })
          | (.ok, disk1) =>
            let metadata : FileMetadata :=
              ⟨file.Filename, (file.content.length : Int), now, 0, false⟩
            let failed : Bool := f.redisErr
              || (s1.callbacksSet && (postUploadCallback hash metadata).isSome)
            (.http (if failed then 500 else 200) none,
              { s1 with disk := disk1,
                        MetadataStore := SyncMap.Store s1.MetadataStore hash metadata })

/-- The function `handleDownload`. -/
def handleDownload (f : Faults) (r : Request) (s : Server) : Response × Server :=
  if ¬ tryAcquire s then (.http 429 none, s)
  else if r.hash = [] then (.http 400 none, s)
  else match blobPath r.hash with
    | none => (.panic, s)
    | some filePath =>
      match osOpen f s.disk filePath with
      | .error .notExist => (.http 404 none, s)
      | .error .other => (.http 500 none, s)
      | .ok file =>
        if s.callbacksSet ∧ (preDownloadCallback f r.hash file).isSome then (.http 500 none, s)
        else
          let store := match SyncMap.Load s.MetadataStore r.hash with
            | some data => SyncMap.Store s.MetadataStore r.hash
                { data with DownloadCount := wrap64 (data.DownloadCount + 1) }
            | none => s.MetadataStore
          (.http (if f.redisErr then 500 else 200) (some file), { s with MetadataStore := store })

/-- The function `handleDelete`. -/
def handleDelete (f : Faults) (r : Request) (s : Server) : Response × Server :=
  if ¬ tryAcquire s then (.http 429 none, s)
  else if r.hash = [] then (.http 400 none, s)
  else match blobPath r.hash with
    | none => (.panic, s)
    | some filePath =>
      match osRemove f s.disk filePath with
      | .error .notExist => (.http 404 none, s)
      | .error .other => (.http 500 none, s)
      | .ok disk1 =>
        (.http (if f.redisErr then 500 else 204) none,
          { s with disk := disk1, MetadataStore := SyncMap.Delete s.MetadataStore r.hash })

/-- The `http.ServeMux` of `StartServer`. -/
def mux (now : Nat) (f : Faults) (r : Request) (s : Server) : Response × Server :=
  if r.Path = "/upload".toList then handleUpload now f r s
  else if r.Path = "/download".toList then handleDownload f r s
  else if r.Path = "/delete".toList then handleDelete f r s
  else (.http 404 none, s)

/-! ## internal/handler: middleware -/

/-- The record stored for a new client: a limiter of burst `RequestsPerSecond`, starting full. -/
def newIPStats : IPStats := ⟨0, 0, 0, 0, RequestsPerSecond, false⟩

inductive Admission
  | rateLimited
  | blocked
  | tooManyConnections
  | admitted
deriving DecidableEq, Repr

/-- First part of `limitMiddleware`: from `RateLimiter.Allow()` to the end of the section
guarded by `ipStat.mu`. -/
def enter (st : IPStats) : Admission × IPStats :=
  if st.RateLimiter = 0 then (.rateLimited, st)
  else
    let st1 := { st with RateLimiter := st.RateLimiter - 1 }
    if st1.mu then (.blocked, st1)
    else if st1.Connections ≥ MaxConnectionsPerIP then (.tooManyConnections, { st1 with mu := true })
    else (.admitted, { st1 with Connections := wrap64 (st1.Connections + 1), mu := false })

/-- The deferred function of `limitMiddleware`; `none` when it waits for the mutex. -/
def leave (st : IPStats) : Option IPStats :=
  if st.mu then none else some { st with Connections := wrap64 (st.Connections - 1), mu := false }

/-- The byte-limit section of `limitMiddleware`; `none` is the rejection with status 403. -/
def chargeBytes (r : Request) (st : IPStats) : Option IPStats :=
  if r.Method = "POST".toList ∧ r.ContentLength > 0 then
    if wrap64 (st.UploadBytes + r.ContentLength) > MaxUploadBytesPerIP then none
    else some { st with UploadBytes := wrap64 (st.UploadBytes + r.ContentLength) }
  else if r.Method = "GET".toList then
    if wrap64 (st.DownloadBytes + MaxDownloadSize) > MaxDownloadBytesPerIP then none
    else some { st with DownloadBytes := wrap64 (st.DownloadBytes + MaxDownloadSize) }
  else if r.Method = "DELETE".toList then
    if wrap64 (st.DeleteBytes + DeleteSize) > MaxDeleteBytesPerIP then none
    else some { st with DeleteBytes := wrap64 (st.DeleteBytes + DeleteSize) }
  else some st

/-- The record of a client, as `ipStats.LoadOrStore(ip, newIPStats)` returns it. -/
def clientStats (s : Server) (ip : Str) : IPStats :=
  (SyncMap.Load s.ipStats ip).getD newIPStats

def setStats (s : Server) (ip : Str) (st : IPStats) : Server :=
  { s with ipStats := SyncMap.Store s.ipStats ip st }

/-- Run the deferred function of `limitMiddleware` once the response `resp` is written. -/
def finish (ip : Str) (resp : Response) (s : Server) : Response × Server :=
  match leave (clientStats s ip) with
  | none => (.blocked, s)
  | some st => (resp, setStats s ip st)

/-- The function `limitMiddleware`, one request run from start to end. -/
def limitMiddleware (next : Request → Server → Response × Server) (r : Request) (s : Server) :
    Response × Server :=
  let ip := r.RemoteAddr
  match enter (clientStats s ip) with
  | (.rateLimited, st) => (.http 429 none, setStats s ip st)
  | (.blocked, st) => (.blocked, setStats s ip st)
  | (.tooManyConnections, st) => (.http 429 none, setStats s ip st)
  | (.admitted, st) =>
    match chargeBytes r st with
    | none => finish ip (.http 403 none) (setStats s ip st)
    | some st1 =>
      let out := next r (setStats s ip st1)
      finish ip out.1 out.2

/-- The handler that `StartServer` passes to `http.ListenAndServe`. -/
def StartServer (now : Nat) (f : Faults) (r : Request) (s : Server) : Response × Server :=
  limitMiddleware (mux now f) r s

/-- State of the process when `main` reaches `StartServer`: an empty store, no client seen,
and callback variables still nil, since nothing calls `SetupCallbacks`. -/
def main : Server := ⟨[], [], 0, [], false⟩

/-! ## Sample data -/

/-- SHA-256 of the three bytes `abc`. -/
def abcDigest : Str := "ba7816bf8f01cfea414140de5dae2223b00361a396177a9cb410ff61f20015ad".toList

/-- SHA-256 of the empty content. -/
def emptyDigest : Str := "e3b0c44298fc1c149afbf4c8996fb92427ae41e4649b934ca495991b7852b855".toList

def abcPath : Str :=
  "store/ba/ba7816bf8f01cfea414140de5dae2223b00361a396177a9cb410ff61f20015ad".toList

def emptyPath : Str :=
  "store/e3/e3b0c44298fc1c149afbf4c8996fb92427ae41e4649b934ca495991b7852b855".toList

def sampleClient : Str := "198.51.100.7:40000".toList

/-- A multipart upload of the file `a.txt` holding `abc`. -/
def uploadAbc : Request :=
  ⟨sampleClient, "POST".toList, "/upload".toList, 300, 300, [], some ⟨"a.txt".toList, [97, 98, 99]⟩,
    [], [], []⟩

/-- The request `GET /download?hash=<digest of abc>`. -/
def downloadAbc : Request :=
  ⟨sampleClient, "GET".toList, "/download".toList, 0, 0, abcDigest, none, [], [], []⟩

/-- The request `DELETE /delete?hash=<digest of abc>/`, the digest followed by a slash. -/
def deleteAbcSlash : Request :=
  ⟨sampleClient, "DELETE".toList, "/delete".toList, 0, 0, abcDigest ++ ['/'], none, [], [], []⟩

/-- The copy into the new blob fails after one byte. -/
def writeFailsAfterOne : Faults := { noFaults with writeErr := some 1 }

/-- A `POST` without declared length (chunked transfer), `ContentLength = -1`. -/
def chunkedPost : Request :=
  ⟨sampleClient, "POST".toList, "/upload".toList, -1, 300, [], some ⟨"a.txt".toList, [97, 98, 99]⟩,
    [], [], []⟩

/-- A `POST` that declares `Content-Length: 9223372036854775807`. -/
def hugePost : Request :=
  ⟨sampleClient, "POST".toList, "/upload".toList, 9223372036854775807, 300, [],
    some ⟨"a.txt".toList, [97, 98, 99]⟩, [], [], []⟩

/-- A `POST` that declares 5 MB. -/
def fiveMegPost : Request :=
  ⟨sampleClient, "POST".toList, "/upload".toList, 5242880, 5242880, [],
    some ⟨"a.txt".toList, [97, 98, 99]⟩, [], [], []⟩

/-- A client with one request in flight, 46 MB of uploads counted and four tokens left. -/
def used46 : IPStats := ⟨1, 48234496, 0, 0, 4, false⟩

/-- The three byte counters of a client record. -/
def byteCounters (st : IPStats) : Int × Int × Int := (st.UploadBytes, st.DownloadBytes, st.DeleteBytes)

/-- The range of `int64`. -/
def inInt64 (x : Int) : Prop := -9223372036854775808 ≤ x ∧ x ≤ 9223372036854775807

instance (x : Int) : Decidable (inInt64 x) := inferInstanceAs (Decidable (_ ∧ _))

/-- A client with ten requests in flight and a full token bucket. -/
def atCap : IPStats := ⟨10, 0, 0, 0, 5, false⟩

/-- The server of `main` with the client `sampleClient` at the connection cap. -/
def serverAtCap : Server := ⟨[], [], 0, [(sampleClient, atCap)], false⟩

/-- An upload of `abc` that supplies the right MD5 and a wrong SHA-256. -/
def uploadWrongSha : Request :=
  ⟨sampleClient, "POST".toList, "/upload".toList, 300, 300, [], some ⟨"a.txt".toList, [97, 98, 99]⟩,
    "900150983cd24fb0d6963f7d28e17f72".toList, [], emptyDigest⟩

/-- The server of `main` while ten requests of other clients hold the ten slots of
`uploadSemaphore`. -/
def serverFull : Server := ⟨[], [], 10, [], false⟩

/-! ## Vocabulary for the statements about `CleanupStorage` -/

/-- A `sync.Map` holds one value per key. -/
def NodupKeys (m : MetaMap) : Prop := (m.map Prod.fst).Nodup

instance (m : MetaMap) : Decidable (NodupKeys m) := inferInstanceAs (Decidable (List.Nodup _))

/-- Sum of `Size` over all entries, as an integer. -/
def totalSize (m : MetaMap) : Int := (m.map (fun e => e.2.Size)).sum

/-- Sizes are byte counts, and their sum is representable in `int64`. -/
def SizesFit (m : MetaMap) : Prop :=
  (∀ e ∈ m, 0 ≤ e.2.Size) ∧ totalSize m ≤ 9223372036854775807

instance (m : MetaMap) : Decidable (SizesFit m) := inferInstanceAs (Decidable (_ ∧ _))

/-- Keys are long enough for `hash[0:2]`, as every digest is. -/
def SliceableKeys (m : MetaMap) : Prop := ∀ e ∈ m, 2 ≤ e.1.length

instance (m : MetaMap) : Decidable (SliceableKeys m) :=
  inferInstanceAs (Decidable (∀ e ∈ m, 2 ≤ e.1.length))

/-- The element that the `Range` callback appends for an entry. -/
def toInfo (e : Str × FileMetadata) : FileInfo := ⟨e.1, e.2.Size, e.2.DownloadCount⟩

/-- Digests of the evicted entries, in the order of the "Deleted file" log lines. -/
def deletedHashes : List LogLine → List Str
  | [] => []
  | .deleted h :: r => h :: deletedHashes r
  | .failedDelete _ :: r => deletedHashes r
  | .failedMark _ :: r => deletedHashes r

/-- Size of the file part of a request, zero without one. -/
def uploadedSize (r : Request) : Int :=
  match r.file with
  | some file => (file.content.length : Int)
  | none => 0

/-- The store of the eviction example: B with five downloads, A with none, ten bytes each
by their metadata. -/
def storeAB : MetaMap :=
  [(emptyDigest, ⟨"b.bin".toList, 10, 0, 5, false⟩), (abcDigest, ⟨"a.bin".toList, 10, 0, 0, false⟩)]

def diskAB : Disk := [(emptyPath, []), (abcPath, [97, 98, 99])]

/-- A store whose single entry fills the budget of `MaxStorageSize` exactly. -/
def serverAtBudget : Server :=
  ⟨[(emptyDigest, ⟨"b.bin".toList, 10737418240, 0, 0, false⟩)], [(emptyPath, [])], 0, [], false⟩

/-- What the loop relies on between iterations: keys are unique, the candidates still to
visit are distinct entries of the store with their sizes, and `totalSize` is the exact sum. -/
structure LoopInv (files : List FileInfo) (total : Int) (store : MetaMap) : Prop where
  nodup : NodupKeys store
  filesNodup : (files.map FileInfo.Hash).Nodup
  present : ∀ x ∈ files, ∃ md, (x.Hash, md) ∈ store ∧ md.Size = x.Size
  total_eq : total = totalSize store
  fit : SizesFit store

/-! ## Facts about `sync.Map` -/

theorem SyncMap.load_store_self {β : Type} (m : List (Str × β)) (k : Str) (v : β) :
    SyncMap.Load (SyncMap.Store m k v) k = some v := by
  induction m with
  | nil => simp [SyncMap.Store, SyncMap.Load]
  | cons e m ih =>
    obtain ⟨k1, v1⟩ := e
    by_cases h : k1 = k
    · simp [SyncMap.Store, SyncMap.Load, h]
    · simp [SyncMap.Store, SyncMap.Load, h, ih]

theorem clientStats_setStats (s : Server) (ip : Str) (st : IPStats) :
    clientStats (setStats s ip st) ip = st := by
  simp [clientStats, setStats, SyncMap.load_store_self]

/-! ## The mutex of a client record -/

/-- C10. A request that finds the connection counter at the cap is answered with status 429
and returns with the mutex of the client record still held. -/
theorem limitMiddleware_cap_rejection_keeps_mutex
    (next : Request → Server → Response × Server) (r : Request) (s : Server)
    (htok : (clientStats s r.RemoteAddr).RateLimiter ≠ 0)
    (hmu : (clientStats s r.RemoteAddr).mu = false)
    (hcap : MaxConnectionsPerIP ≤ (clientStats s r.RemoteAddr).Connections) :
    (limitMiddleware next r s).1 = .http 429 none ∧
      (clientStats (limitMiddleware next r s).2 r.RemoteAddr).mu = true := by
  have he : enter (clientStats s r.RemoteAddr) =
      (.tooManyConnections,
        { clientStats s r.RemoteAddr with
          RateLimiter := (clientStats s r.RemoteAddr).RateLimiter - 1, mu := true }) := by
    simp [enter, htok, hmu, hcap]
  simp [limitMiddleware, he, clientStats_setStats]

/-- C6. Once a request has been rejected at the cap, the deferred decrement of a request in
flight waits for the mutex for ever and the next request of the client is neither admitted
nor rejected by the connection check: the counter stays where it was. -/
theorem cap_rejection_stops_connection_accounting (st : IPStats)
    (htok : st.RateLimiter ≠ 0) (hmu : st.mu = false)
    (hcap : MaxConnectionsPerIP ≤ st.Connections) :
    (enter st).1 = .tooManyConnections ∧
      (enter st).2.Connections = st.Connections ∧
      leave (enter st).2 = none ∧
      ((enter (enter st).2).1 = .blocked ∨ (enter (enter st).2).1 = .rateLimited) ∧
      (enter (enter st).2).2.Connections = st.Connections := by
  have he : enter st =
      (.tooManyConnections, { st with RateLimiter := st.RateLimiter - 1, mu := true }) := by
    simp [enter, htok, hmu, hcap]
  rw [he]
  refine ⟨rfl, rfl, by simp [leave], ?_, ?_⟩
  · by_cases h : st.RateLimiter - 1 = 0 <;> simp [enter, h]
  · by_cases h : st.RateLimiter - 1 = 0 <;> simp [enter, h]

/-! ## Known answers of the digest functions -/

theorem HashFile_abc : HashFile [97, 98, 99] = abcDigest := by decide

theorem HashFile_empty : HashFile [] = emptyDigest := by decide

theorem CalculateHash_md5_abc :
    CalculateHash [97, 98, 99] "md5".toList = some "900150983cd24fb0d6963f7d28e17f72".toList := by
  decide

theorem CalculateHash_sha1_abc :
    CalculateHash [97, 98, 99] "sha1".toList
      = some "a9993e364706816aba3e25717850c26c9cd0d89d".toList := by
  decide

theorem blobPath_abc : blobPath abcDigest = some abcPath := by decide

/-! ## Download and delete on the server that `main` starts -/

/-- C8. On the server started by `main` the callbacks are nil. An upload of `abc` whose blob
write fails after one byte leaves the one-byte blob under the digest of `abc`; the download
of that digest then sends this byte, although its SHA-256 is not the requested digest. -/
theorem main_download_serves_unverified_blob :
    (StartServer 0 writeFailsAfterOne uploadAbc main).1 = .http 500 none ∧
    (StartServer 0 writeFailsAfterOne uploadAbc main).2.disk = [(abcPath, [97])] ∧
    HashFile [97] ≠ abcDigest ∧
    (StartServer 1 noFaults downloadAbc (StartServer 0 writeFailsAfterOne uploadAbc main).2).1
      = .http 200 (some [97]) := by
  decide

/-- With the callbacks of `SetupCallbacks` in place the same download is refused. -/
theorem setup_download_rejects_unverified_blob :
    (StartServer 1 noFaults downloadAbc
      (SetupCallbacks (StartServer 0 writeFailsAfterOne uploadAbc main).2)).1
      = .http 500 none := by
  decide

/-- Without callbacks `handleDownload` sends whatever blob lies at the path of the
requested hash. -/
theorem handleDownload_without_callbacks (f : Faults) (r : Request) (s : Server) (p : Str)
    (file : Bytes) (hcb : s.callbacksSet = false) (hsem : tryAcquire s = true)
    (hh : r.hash ≠ []) (hp : blobPath r.hash = some p) (ho : osOpen f s.disk p = .ok file) :
    (handleDownload f r s).1 = .http (if f.redisErr = true then 500 else 200) (some file) := by
  unfold handleDownload
  simp [hsem, hh, hp, ho, hcb]

theorem handleUpload_callbacksSet (now : Nat) (f : Faults) (r : Request) (s : Server) :
    (handleUpload now f r s).2.callbacksSet = s.callbacksSet := by
  unfold handleUpload
  simp only
  repeat' split
  all_goals rfl

theorem handleDownload_callbacksSet (f : Faults) (r : Request) (s : Server) :
    (handleDownload f r s).2.callbacksSet = s.callbacksSet := by
  unfold handleDownload
  repeat' split
  all_goals rfl

theorem handleDelete_callbacksSet (f : Faults) (r : Request) (s : Server) :
    (handleDelete f r s).2.callbacksSet = s.callbacksSet := by
  unfold handleDelete
  repeat' split
  all_goals rfl

/-- No request changes the callback variables: the server of `main` never has them. -/
theorem StartServer_callbacksSet (now : Nat) (f : Faults) (r : Request) (s : Server) :
    (StartServer now f r s).2.callbacksSet = s.callbacksSet := by
  have hmux : ∀ s1 : Server, (mux now f r s1).2.callbacksSet = s1.callbacksSet := by
    intro s1
    unfold mux
    split
    · exact handleUpload_callbacksSet now f r s1
    · split
      · exact handleDownload_callbacksSet f r s1
      · split
        · exact handleDelete_callbacksSet f r s1
        · rfl
  have hfin : ∀ (resp : Response) (s1 : Server),
      (finish r.RemoteAddr resp s1).2.callbacksSet = s1.callbacksSet := by
    intro resp s1
    unfold finish
    split <;> rfl
  unfold StartServer limitMiddleware
  simp only
  split
  · rfl
  · rfl
  · rfl
  · split
    · rw [hfin]; rfl
    · rw [hfin, hmux]; rfl

/-- C9. From the empty store, the upload of `abc` writes its blob; a delete request whose
hash is the digest of `abc` with a slash appended is then answered 204, removes the blob of
`abc` and leaves the metadata entry of `abc` in `MetadataStore`. -/
theorem delete_alias_leaves_metadata_without_blob :
    SyncMap.Load (StartServer 0 noFaults uploadAbc main).2.disk abcPath = some [97, 98, 99] ∧
    (StartServer 1 noFaults deleteAbcSlash (StartServer 0 noFaults uploadAbc main).2).1
      = .http 204 none ∧
    SyncMap.Load
      (StartServer 1 noFaults deleteAbcSlash (StartServer 0 noFaults uploadAbc main).2).2.MetadataStore
      abcDigest = some ⟨"a.txt".toList, 3, 0, 0, false⟩ ∧
    blobPath abcDigest = some abcPath ∧
    SyncMap.Load
      (StartServer 1 noFaults deleteAbcSlash (StartServer 0 noFaults uploadAbc main).2).2.disk
      abcPath = none := by
  decide

/-! ## The byte quota -/

theorem wrap64_of_inInt64 {x : Int} (h : inInt64 x) : wrap64 x = x := by
  unfold inInt64 at h
  unfold wrap64
  omega

theorem enter_admitted {st st1 : IPStats} (h : enter st = (.admitted, st1)) :
    st.RateLimiter ≠ 0 ∧ st.mu = false ∧ st.Connections < MaxConnectionsPerIP ∧
      st1 = { st with RateLimiter := st.RateLimiter - 1,
                      Connections := wrap64 (st.Connections + 1), mu := false } := by
  unfold enter at h
  by_cases h0 : st.RateLimiter = 0
  · simp [h0] at h
  · by_cases h1 : st.mu = true
    · simp [h0, h1] at h
    · by_cases h2 : st.Connections ≥ MaxConnectionsPerIP
      · simp [h0, h1, h2] at h
      · simp [h0, h1, h2] at h
        refine ⟨h0, by simpa using h1, by omega, ?_⟩
        rw [← h]

/-- C5, as stated, fails on two inputs. A `POST` without declared length is let through and
charged nothing, so the counter does not move by `ContentLength`. A `POST` declaring
`2^63 - 1` bytes on a counter of 1 has `current + charge` above the quota and is let
through, the sum wrapping around in `int64`. -/
theorem chargeBytes_claim_fails :
    (chargeBytes chunkedPost ⟨1, 100, 0, 0, 4, false⟩ = some ⟨1, 100, 0, 0, 4, false⟩ ∧
      (100 : Int) + chunkedPost.ContentLength ≠ 100) ∧
    ((1 : Int) + hugePost.ContentLength > MaxUploadBytesPerIP ∧
      chargeBytes hugePost ⟨1, 1, 0, 0, 4, false⟩
        = some ⟨1, -9223372036854775808, 0, 0, 4, false⟩) := by
  decide

/-- C5, amended. For a `POST` with a positive declared length, a `GET` and a `DELETE`, as
long as counter plus charge stays inside `int64`, the byte check rejects exactly when
`current + charge > classQuota`, and otherwise adds the charge to the counter of that class
and to no other; a rejected request leaves the three counters of the client as they were
when `limitMiddleware` returns. A `POST` whose declared length is not positive, and a request
of any other method, passes without charge. In every case a counter that is within its
quota before the check is within it after. -/
theorem chargeBytes_spec (r : Request) (st : IPStats) :
    (r.Method = "POST".toList → 0 < r.ContentLength →
      inInt64 st.UploadBytes → st.UploadBytes + r.ContentLength ≤ 9223372036854775807 →
        (chargeBytes r st = none ↔ st.UploadBytes + r.ContentLength > MaxUploadBytesPerIP) ∧
        (st.UploadBytes + r.ContentLength ≤ MaxUploadBytesPerIP →
          chargeBytes r st = some { st with UploadBytes := st.UploadBytes + r.ContentLength })) ∧
    (r.Method = "GET".toList →
      inInt64 st.DownloadBytes → st.DownloadBytes + 1024 ≤ 9223372036854775807 →
        (chargeBytes r st = none ↔ st.DownloadBytes + 1024 > MaxDownloadBytesPerIP) ∧
        (st.DownloadBytes + 1024 ≤ MaxDownloadBytesPerIP →
          chargeBytes r st = some { st with DownloadBytes := st.DownloadBytes + 1024 })) ∧
    (r.Method = "DELETE".toList →
      inInt64 st.DeleteBytes → st.DeleteBytes + 512 ≤ 9223372036854775807 →
        (chargeBytes r st = none ↔ st.DeleteBytes + 512 > MaxDeleteBytesPerIP) ∧
        (st.DeleteBytes + 512 ≤ MaxDeleteBytesPerIP →
          chargeBytes r st = some { st with DeleteBytes := st.DeleteBytes + 512 })) ∧
    ((r.Method = "POST".toList ∧ r.ContentLength ≤ 0) ∨
      (r.Method ≠ "POST".toList ∧ r.Method ≠ "GET".toList ∧ r.Method ≠ "DELETE".toList) →
        chargeBytes r st = some st) ∧
    (∀ (next : Request → Server → Response × Server) (s : Server),
      enter (clientStats s r.RemoteAddr) = (.admitted, st) → chargeBytes r st = none →
        (limitMiddleware next r s).1 = .http 403 none ∧
        byteCounters (clientStats (limitMiddleware next r s).2 r.RemoteAddr)
          = byteCounters (clientStats s r.RemoteAddr)) ∧
    (∀ st1, chargeBytes r st = some st1 →
      st.UploadBytes ≤ MaxUploadBytesPerIP → st.DownloadBytes ≤ MaxDownloadBytesPerIP →
      st.DeleteBytes ≤ MaxDeleteBytesPerIP →
        st1.UploadBytes ≤ MaxUploadBytesPerIP ∧ st1.DownloadBytes ≤ MaxDownloadBytesPerIP ∧
        st1.DeleteBytes ≤ MaxDeleteBytesPerIP) := by
  have hPG : ("POST".toList : Str) ≠ "GET".toList := by decide
  have hPD : ("POST".toList : Str) ≠ "DELETE".toList := by decide
  have hGD : ("GET".toList : Str) ≠ "DELETE".toList := by decide
  refine ⟨?_, ?_, ?_, ?_, ?_, ?_⟩
  · intro hm hpos hin hsum
    have hw : wrap64 (st.UploadBytes + r.ContentLength) = st.UploadBytes + r.ContentLength :=
      wrap64_of_inInt64 ⟨by unfold inInt64 at hin; omega, hsum⟩
    constructor
    · simp only [chargeBytes, hm, hpos, hw, true_and, if_true]
      split <;> simp_all
    · intro hle
      have : ¬ st.UploadBytes + r.ContentLength > MaxUploadBytesPerIP := by omega
      simp [chargeBytes, hm, hpos, hw, this]
  · intro hm hin hsum
    have hw : wrap64 (st.DownloadBytes + MaxDownloadSize) = st.DownloadBytes + 1024 :=
      wrap64_of_inInt64 ⟨by unfold inInt64 at hin; unfold MaxDownloadSize; omega, hsum⟩
    have hnp : ¬ (r.Method = "POST".toList) := by rw [hm]; exact fun h => hPG h.symm
    constructor
    · simp only [chargeBytes, hm, hw]
      simp only [show ¬ ("GET".toList = "POST".toList ∧ r.ContentLength > 0) from
        fun h => hPG h.1.symm, if_false, if_true]
      split <;> simp_all
    · intro hle
      have : ¬ st.DownloadBytes + 1024 > MaxDownloadBytesPerIP := by omega
      simp only [chargeBytes, hm, hw]
      simp only [show ¬ ("GET".toList = "POST".toList ∧ r.ContentLength > 0) from
        fun h => hPG h.1.symm, if_false, if_true, this]
  · intro hm hin hsum
    have hw : wrap64 (st.DeleteBytes + DeleteSize) = st.DeleteBytes + 512 :=
      wrap64_of_inInt64 ⟨by unfold inInt64 at hin; unfold DeleteSize; omega, hsum⟩
    have h1 : ¬ ("DELETE".toList = "POST".toList ∧ r.ContentLength > 0) := fun h => hPD h.1.symm
    have h2 : ¬ (("DELETE".toList : Str) = "GET".toList) := fun h => hGD h.symm
    constructor
    · simp only [chargeBytes, hm, hw, h1, h2, if_false, if_true]
      split <;> simp_all
    · intro hle
      have : ¬ st.DeleteBytes + 512 > MaxDeleteBytesPerIP := by omega
      simp only [chargeBytes, hm, hw, h1, h2, if_false, if_true, this]
  · rintro (⟨hm, hle⟩ | ⟨h1, h2, h3⟩)
    · have h1 : ¬ (r.Method = "POST".toList ∧ r.ContentLength > 0) := fun h => by omega
      have h2 : ¬ (r.Method = "GET".toList) := by rw [hm]; exact hPG
      have h3 : ¬ (r.Method = "DELETE".toList) := by rw [hm]; exact hPD
      unfold chargeBytes
      rw [if_neg h1, if_neg h2, if_neg h3]
    · have h1 : ¬ (r.Method = "POST".toList ∧ r.ContentLength > 0) := fun h => h1 h.1
      unfold chargeBytes
      rw [if_neg h1, if_neg h2, if_neg h3]
  · intro next s he hnone
    obtain ⟨-, -, -, hst⟩ := enter_admitted he
    have hmu : st.mu = false := by rw [hst]
    have hc : byteCounters st = byteCounters (clientStats s r.RemoteAddr) := by rw [hst]; rfl
    simp [limitMiddleware, he, hnone, finish, leave, clientStats_setStats, hmu]
    rw [← hc]; rfl
  · intro st1 h hu hd hx
    unfold chargeBytes at h
    split at h
    · split at h
      · simp at h
      · simp at h; subst h; simp only; omega
    · split at h
      · split at h
        · simp at h
        · simp at h; subst h; simp only; omega
      · split at h
        · split at h
          · simp at h
          · simp at h; subst h; simp only; omega
        · simp at h; subst h; exact ⟨hu, hd, hx⟩

theorem chargeBytes_spec_witness :
    fiveMegPost.Method = "POST".toList ∧ 0 < fiveMegPost.ContentLength ∧
      inInt64 used46.UploadBytes ∧
      used46.UploadBytes + fiveMegPost.ContentLength ≤ 9223372036854775807 ∧
      used46.UploadBytes + fiveMegPost.ContentLength > MaxUploadBytesPerIP ∧
      chargeBytes fiveMegPost used46 = none :=
  ⟨by decide, by decide, by decide, by decide, by decide,
    ((chargeBytes_spec fiveMegPost used46).1 (by decide) (by decide) (by decide)
      (by decide)).1.mpr (by decide)⟩

theorem limitMiddleware_cap_rejection_keeps_mutex_witness :
    (clientStats serverAtCap downloadAbc.RemoteAddr).RateLimiter ≠ 0 ∧
      (clientStats serverAtCap downloadAbc.RemoteAddr).mu = false ∧
      MaxConnectionsPerIP ≤ (clientStats serverAtCap downloadAbc.RemoteAddr).Connections ∧
      (limitMiddleware (mux 0 noFaults) downloadAbc serverAtCap).1 = .http 429 none ∧
      (clientStats (limitMiddleware (mux 0 noFaults) downloadAbc serverAtCap).2
        downloadAbc.RemoteAddr).mu = true :=
  ⟨by decide, by decide, by decide,
    limitMiddleware_cap_rejection_keeps_mutex (mux 0 noFaults) downloadAbc serverAtCap
      (by decide) (by decide) (by decide)⟩

theorem cap_rejection_stops_connection_accounting_witness :
    atCap.RateLimiter ≠ 0 ∧ atCap.mu = false ∧ MaxConnectionsPerIP ≤ atCap.Connections ∧
      (enter atCap).1 = .tooManyConnections ∧
      (enter atCap).2.Connections = atCap.Connections ∧
      leave (enter atCap).2 = none ∧
      ((enter (enter atCap).2).1 = .blocked ∨ (enter (enter atCap).2).1 = .rateLimited) ∧
      (enter (enter atCap).2).2.Connections = atCap.Connections :=
  ⟨by decide, by decide, by decide,
    cap_rejection_stops_connection_accounting atCap (by decide) (by decide) (by decide)⟩

/-! ## The pre-upload check -/

theorem CalculateHash_md5 (b : Bytes) :
    CalculateHash b "md5".toList = some (hexEncode (md5Sum b)) := by
  unfold CalculateHash
  rw [if_pos rfl]

theorem CalculateHash_sha1 (b : Bytes) :
    CalculateHash b "sha1".toList = some (hexEncode (sha1Sum b)) := by
  unfold CalculateHash
  rw [if_neg (by decide), if_pos rfl]

theorem CalculateHash_sha256 (b : Bytes) :
    CalculateHash b "sha256".toList = some (hexEncode (sha256Sum b)) := by
  unfold CalculateHash
  rw [if_neg (by decide), if_neg (by decide), if_pos rfl]

/-- Every return of `handleUpload` before `SaveFile` leaves the metadata and the disk as
`CleanupStorage` left them. -/
theorem handleUpload_rejected_by_callback (now : Nat) (f : Faults) (r : Request) (s : Server)
    (hset : s.callbacksSet = true) (hrej : (preUploadCallback f r).isSome = true) :
    (handleUpload now f r s).2.MetadataStore
        = (CleanupStorage f MaxStorageSize s.MetadataStore s.disk).store ∧
      (handleUpload now f r s).2.disk
        = (CleanupStorage f MaxStorageSize s.MetadataStore s.disk).disk ∧
      ((CleanupStorage f MaxStorageSize s.MetadataStore s.disk).exit = .ok →
        tryAcquire s = true → (handleUpload now f r s).1 = .http 500 none) := by
  unfold handleUpload
  cases hc : (CleanupStorage f MaxStorageSize s.MetadataStore s.disk).exit
  · by_cases ht : s.uploadSemaphore + 1 ≤ 10
    · simp [hc, tryAcquire, ht, hset, hrej]
    · simp [hc, tryAcquire, ht]
  · simp [hc]
  · simp [hc]

/-- C7. With the callbacks of `SetupCallbacks`, for an upload whose file part is read without
I/O error, the pre-upload check returns an error exactly when some supplied (non-empty)
expected value among `md5`, `sha1`, `sha256` differs from the lowercase hexadecimal digest
of that algorithm over the whole payload; an empty value is not checked. When it returns
an error, `handleUpload` answers 500 and the metadata and the disk are what
`CleanupStorage` left, whatever write failure the environment had prepared: neither
`SaveFile` nor the metadata store is reached. -/
theorem preUploadCallback_spec (f : Faults) (r : Request) (file : FormFile)
    (hfile : r.file = some file) (hbuf : f.bufferErr = false) :
    ((preUploadCallback f r).isSome = true ↔
      (r.md5 ≠ [] ∧ r.md5 ≠ hexEncode (md5Sum file.content)) ∨
      (r.sha1 ≠ [] ∧ r.sha1 ≠ hexEncode (sha1Sum file.content)) ∨
      (r.sha256 ≠ [] ∧ r.sha256 ≠ hexEncode (sha256Sum file.content))) ∧
    (∀ (now : Nat) (s : Server), s.callbacksSet = true →
      (preUploadCallback f r).isSome = true →
        (handleUpload now f r s).2.MetadataStore
          = (CleanupStorage f MaxStorageSize s.MetadataStore s.disk).store ∧
        (handleUpload now f r s).2.disk
          = (CleanupStorage f MaxStorageSize s.MetadataStore s.disk).disk ∧
        ((CleanupStorage f MaxStorageSize s.MetadataStore s.disk).exit = .ok →
          tryAcquire s = true → (handleUpload now f r s).1 = .http 500 none)) := by
  refine ⟨?_, fun now s hset hrej => handleUpload_rejected_by_callback now f r s hset hrej⟩
  unfold preUploadCallback
  rw [hfile]
  simp only [hbuf, CalculateHash_md5, CalculateHash_sha1, CalculateHash_sha256]
  have e : ∀ (a b : Str), (some a ≠ some b) ↔ b ≠ a := by
    intro a b; constructor
    · intro h hb; exact h (by rw [hb])
    · intro h hab; exact h (by injection hab with hab; exact hab.symm)
  simp only [e]
  by_cases h1 : r.md5 ≠ [] ∧ r.md5 ≠ hexEncode (md5Sum file.content)
  · simp [h1]
  · by_cases h2 : r.sha1 ≠ [] ∧ r.sha1 ≠ hexEncode (sha1Sum file.content)
    · simp [h1, h2]
    · by_cases h3 : r.sha256 ≠ [] ∧ r.sha256 ≠ hexEncode (sha256Sum file.content)
      · simp [h1, h2, h3]
      · simp [h1, h2, h3]

theorem preUploadCallback_spec_witness :
    uploadWrongSha.file = some ⟨"a.txt".toList, [97, 98, 99]⟩ ∧ noFaults.bufferErr = false ∧
      (preUploadCallback noFaults uploadWrongSha).isSome = true ∧
      (handleUpload 0 writeFailsAfterOne uploadWrongSha (SetupCallbacks main)).2.disk = [] :=
  ⟨rfl, rfl,
    (preUploadCallback_spec noFaults uploadWrongSha ⟨"a.txt".toList, [97, 98, 99]⟩ rfl rfl).1.mpr
      (Or.inr (Or.inr (by decide))),
    ((preUploadCallback_spec writeFailsAfterOne uploadWrongSha ⟨"a.txt".toList, [97, 98, 99]⟩
      rfl rfl).2 0 (SetupCallbacks main) rfl (by decide)).2.1⟩

/-! ## Order of the admission checks -/

theorem chargeBytes_frame {r : Request} {st st2 : IPStats} (h : chargeBytes r st = some st2) :
    st2.Connections = st.Connections ∧ st2.RateLimiter = st.RateLimiter ∧ st2.mu = st.mu := by
  unfold chargeBytes at h
  split at h
  · split at h
    · simp at h
    · simp at h; subst h; exact ⟨rfl, rfl, rfl⟩
  · split at h
    · split at h
      · simp at h
      · simp at h; subst h; exact ⟨rfl, rfl, rfl⟩
    · split at h
      · split at h
        · simp at h
        · simp at h; subst h; exact ⟨rfl, rfl, rfl⟩
      · simp at h; subst h; exact ⟨rfl, rfl, rfl⟩

theorem wrap64_succ_pred {c : Int} (h : inInt64 c) : wrap64 (wrap64 (c + 1) - 1) = c := by
  unfold inInt64 at h
  unfold wrap64
  omega

theorem handleUpload_full (now : Nat) (f : Faults) (r : Request) (s : Server)
    (hfull : tryAcquire s = false)
    (hclean : (CleanupStorage f MaxStorageSize s.MetadataStore s.disk).exit = .ok) :
    handleUpload now f r s = (.http 429 none,
      { s with MetadataStore := (CleanupStorage f MaxStorageSize s.MetadataStore s.disk).store,
               disk := (CleanupStorage f MaxStorageSize s.MetadataStore s.disk).disk }) := by
  have h : ¬ (s.uploadSemaphore + 1 ≤ 10) := by simpa [tryAcquire] using hfull
  simp [handleUpload, hclean, tryAcquire, h]

theorem handleDownload_full (f : Faults) (r : Request) (s : Server)
    (hfull : tryAcquire s = false) : handleDownload f r s = (.http 429 none, s) := by
  simp [handleDownload, hfull]

theorem handleDelete_full (f : Faults) (r : Request) (s : Server)
    (hfull : tryAcquire s = false) : handleDelete f r s = (.http 429 none, s) := by
  simp [handleDelete, hfull]

/-- C4, as stated, fails: with the ten slots of the semaphore taken, the first upload of a
new client is answered 429 by `handleUpload`, and the client is left with four tokens of
five and 300 upload bytes counted. -/
theorem semaphore_rejection_has_side_effects :
    tryAcquire serverFull = false ∧
    clientStats serverFull sampleClient = ⟨0, 0, 0, 0, 5, false⟩ ∧
    (StartServer 0 noFaults uploadAbc serverFull).1 = .http 429 none ∧
    clientStats (StartServer 0 noFaults uploadAbc serverFull).2 sampleClient
      = ⟨0, 300, 0, 0, 4, false⟩ := by
  decide

/-- C4, amended. The checks run in the order rate limit, connection cap, byte quota (in
`limitMiddleware`), then, inside the handler, `CleanupStorage` for an upload and last the
global semaphore. A request that passed the three checks of the middleware and finds no
free slot is answered 429; afterwards the client has one token less, its byte counters
carry the charge of the request, its connection counter is back at its former value, and
the metadata and the disk are what `CleanupStorage` left for an upload and untouched for a
download or a delete. -/
theorem semaphore_rejection_after_admission (now : Nat) (f : Faults) (r : Request) (s : Server)
    (st1 st2 : IPStats)
    (hfull : tryAcquire s = false)
    (hpath : r.Path = "/upload".toList ∨ r.Path = "/download".toList ∨ r.Path = "/delete".toList)
    (he : enter (clientStats s r.RemoteAddr) = (.admitted, st1))
    (hq : chargeBytes r st1 = some st2)
    (hclean : r.Path = "/upload".toList →
      (CleanupStorage f MaxStorageSize s.MetadataStore s.disk).exit = .ok)
    (hconn : inInt64 (clientStats s r.RemoteAddr).Connections) :
    (StartServer now f r s).1 = .http 429 none ∧
    (clientStats (StartServer now f r s).2 r.RemoteAddr).RateLimiter + 1
      = (clientStats s r.RemoteAddr).RateLimiter ∧
    byteCounters (clientStats (StartServer now f r s).2 r.RemoteAddr) = byteCounters st2 ∧
    (clientStats (StartServer now f r s).2 r.RemoteAddr).Connections
      = (clientStats s r.RemoteAddr).Connections ∧
    (r.Path = "/upload".toList →
      (StartServer now f r s).2.MetadataStore
        = (CleanupStorage f MaxStorageSize s.MetadataStore s.disk).store ∧
      (StartServer now f r s).2.disk
        = (CleanupStorage f MaxStorageSize s.MetadataStore s.disk).disk) ∧
    (r.Path ≠ "/upload".toList →
      (StartServer now f r s).2.MetadataStore = s.MetadataStore ∧
      (StartServer now f r s).2.disk = s.disk) := by
  obtain ⟨htok, -, -, hst1⟩ := enter_admitted he
  obtain ⟨hc2, hr2, hm2⟩ := chargeBytes_frame hq
  have hmu2 : st2.mu = false := by rw [hm2, hst1]
  have hconn2 : st2.Connections = wrap64 ((clientStats s r.RemoteAddr).Connections + 1) := by
    rw [hc2, hst1]
  have hrate2 : st2.RateLimiter = (clientStats s r.RemoteAddr).RateLimiter - 1 := by
    rw [hr2, hst1]
  have hfull2 : tryAcquire (setStats s r.RemoteAddr st2) = false := hfull
  -- the handler returns 429 and leaves the client records alone
  have key : ∃ st : Server, mux now f r (setStats s r.RemoteAddr st2) = (.http 429 none, st) ∧
      st.ipStats = (setStats s r.RemoteAddr st2).ipStats ∧
      (r.Path = "/upload".toList →
        st.MetadataStore = (CleanupStorage f MaxStorageSize s.MetadataStore s.disk).store ∧
        st.disk = (CleanupStorage f MaxStorageSize s.MetadataStore s.disk).disk) ∧
      (r.Path ≠ "/upload".toList → st.MetadataStore = s.MetadataStore ∧ st.disk = s.disk) := by
    unfold mux
    by_cases hu : r.Path = "/upload".toList
    · rw [if_pos hu]
      exact ⟨_, handleUpload_full now f r _ hfull2 (hclean hu), rfl, fun _ => ⟨rfl, rfl⟩,
        fun h => absurd hu h⟩
    · rw [if_neg hu]
      by_cases hd : r.Path = "/download".toList
      · rw [if_pos hd]
        exact ⟨_, handleDownload_full f r _ hfull2, rfl, fun h => absurd h hu,
          fun _ => ⟨rfl, rfl⟩⟩
      · rw [if_neg hd]
        have hdel : r.Path = "/delete".toList := by
          rcases hpath with h | h | h
          · exact absurd h hu
          · exact absurd h hd
          · exact h
        rw [if_pos hdel]
        exact ⟨_, handleDelete_full f r _ hfull2, rfl, fun h => absurd h hu,
          fun _ => ⟨rfl, rfl⟩⟩
  obtain ⟨st, hmux, hips, hup, hnup⟩ := key
  have hcs : clientStats st r.RemoteAddr = st2 := by
    unfold clientStats
    rw [hips]
    exact clientStats_setStats s r.RemoteAddr st2
  have hout : StartServer now f r s =
      (.http 429 none, setStats st r.RemoteAddr
        { st2 with Connections := wrap64 (st2.Connections - 1), mu := false }) := by
    unfold StartServer limitMiddleware
    simp only [he, hq, hmux, finish, hcs, leave, hmu2]
    rfl
  rw [hout]
  refine ⟨rfl, ?_, ?_, ?_, ?_, ?_⟩
  · rw [clientStats_setStats]
    simp only [hrate2]
    omega
  · rw [clientStats_setStats]; rfl
  · rw [clientStats_setStats]
    simp only [hconn2]
    exact wrap64_succ_pred hconn
  · intro h; exact hup h
  · intro h; exact hnup h

theorem semaphore_rejection_after_admission_witness :
    tryAcquire serverFull = false ∧
    chargeBytes uploadAbc ⟨1, 0, 0, 0, 4, false⟩ = some ⟨1, 300, 0, 0, 4, false⟩ ∧
    (StartServer 0 noFaults uploadAbc serverFull).1 = .http 429 none ∧
    (clientStats (StartServer 0 noFaults uploadAbc serverFull).2 uploadAbc.RemoteAddr).RateLimiter
      + 1 = (clientStats serverFull uploadAbc.RemoteAddr).RateLimiter :=
  ⟨by decide, by decide,
    (semaphore_rejection_after_admission 0 noFaults uploadAbc serverFull
      ⟨1, 0, 0, 0, 4, false⟩ ⟨1, 300, 0, 0, 4, false⟩ (by decide) (Or.inl rfl) (by decide)
      (by decide) (fun _ => by decide) (by decide)).1,
    (semaphore_rejection_after_admission 0 noFaults uploadAbc serverFull
      ⟨1, 0, 0, 0, 4, false⟩ ⟨1, 300, 0, 0, 4, false⟩ (by decide) (Or.inl rfl) (by decide)
      (by decide) (fun _ => by decide) (by decide)).2.1⟩

/-! ## Lists of metadata -/

theorem mem_delete {m : MetaMap} {k : Str} {e : Str × FileMetadata} :
    e ∈ SyncMap.Delete m k ↔ e ∈ m ∧ e.1 ≠ k := by
  simp [SyncMap.Delete, List.mem_filter]

theorem nodupKeys_delete {m : MetaMap} (k : Str) (h : NodupKeys m) :
    NodupKeys (SyncMap.Delete m k) := by
  unfold NodupKeys SyncMap.Delete at *
  exact List.Nodup.sublist ((List.filter_sublist m).map Prod.fst) h

theorem nodupKeys_unique {m : MetaMap} (h : NodupKeys m) {k : Str} {v w : FileMetadata}
    (hv : (k, v) ∈ m) (hw : (k, w) ∈ m) : v = w := by
  induction m with
  | nil => simp at hv
  | cons e m ih =>
    unfold NodupKeys at h
    simp only [List.map_cons, List.nodup_cons, List.mem_map, not_exists, not_and] at h
    rcases List.mem_cons.mp hv with hv | hv <;> rcases List.mem_cons.mp hw with hw | hw
    · rw [← hv] at hw; exact (Prod.mk.inj hw).2.symm
    · exact absurd (by rw [← hv]) (h.1 (k, w) hw)
    · exact absurd (by rw [← hw]) (h.1 (k, v) hv)
    · exact ih h.2 hv hw

theorem totalSize_cons (e : Str × FileMetadata) (m : MetaMap) :
    totalSize (e :: m) = e.2.Size + totalSize m := by
  simp [totalSize]

theorem totalSize_nonneg {m : MetaMap} (h : ∀ e ∈ m, 0 ≤ e.2.Size) : 0 ≤ totalSize m := by
  induction m with
  | nil => simp [totalSize]
  | cons e m ih =>
    rw [totalSize_cons]
    have h1 := h e (List.mem_cons_self _ _)
    have h2 := ih (fun x hx => h x (List.mem_cons_of_mem _ hx))
    omega

theorem delete_of_not_mem {m : MetaMap} {k : Str} (h : k ∉ m.map Prod.fst) :
    SyncMap.Delete m k = m := by
  unfold SyncMap.Delete
  rw [List.filter_eq_self]
  intro e he
  simp only [decide_eq_true_eq]
  intro hk
  exact h (List.mem_map.mpr ⟨e, he, hk⟩)

theorem totalSize_delete {m : MetaMap} (h : NodupKeys m) {k : Str} {md : FileMetadata}
    (hk : (k, md) ∈ m) : totalSize (SyncMap.Delete m k) = totalSize m - md.Size := by
  induction m with
  | nil => simp at hk
  | cons e m ih =>
    have h0 := h
    unfold NodupKeys at h
    simp only [List.map_cons, List.nodup_cons] at h
    by_cases hek : e.1 = k
    · have hnot : k ∉ m.map Prod.fst := by rw [← hek]; exact h.1
      have hmd : md = e.2 := nodupKeys_unique h0 hk (by rw [← hek]; exact List.mem_cons_self _ _)
      have : SyncMap.Delete (e :: m) k = m := by
        have hd := delete_of_not_mem hnot
        unfold SyncMap.Delete at hd ⊢
        rw [List.filter_cons_of_neg (by simp [hek]), hd]
      rw [this, totalSize_cons, hmd]
      omega
    · have hkm : (k, md) ∈ m := by
        rcases List.mem_cons.mp hk with hk | hk
        · exact absurd (by rw [← hk]) hek
        · exact hk
      have : SyncMap.Delete (e :: m) k = e :: SyncMap.Delete m k := by
        unfold SyncMap.Delete
        rw [List.filter_cons_of_pos (by simp [hek])]
      rw [this, totalSize_cons, totalSize_cons, ih h.2 hkm]
      omega

theorem sizesFit_delete {m : MetaMap} (h : NodupKeys m) (hf : SizesFit m) {k : Str}
    {md : FileMetadata} (hk : (k, md) ∈ m) : SizesFit (SyncMap.Delete m k) := by
  refine ⟨fun e he => hf.1 e (mem_delete.mp he).1, ?_⟩
  rw [totalSize_delete h hk]
  have := hf.1 (k, md) hk
  have := hf.2
  simp only at *
  omega

/-! ## The eviction loop -/

theorem deletedHashes_evicted (b : Bool) (h : Str) (log : List LogLine) :
    deletedHashes ((if b = true then [LogLine.failedMark h] else []) ++ .deleted h :: log)
      = h :: deletedHashes log := by
  cases b <;> simp [deletedHashes]

theorem LoopInv.skip {file : FileInfo} {rest : List FileInfo} {t : Int} {st : MetaMap}
    (h : LoopInv (file :: rest) t st) : LoopInv rest t st :=
  ⟨h.nodup, (List.nodup_cons.mp h.filesNodup).2,
    fun x hx => h.present x (List.mem_cons_of_mem _ hx), h.total_eq, h.fit⟩

theorem LoopInv.evict {file : FileInfo} {rest : List FileInfo} {t : Int} {st : MetaMap}
    (h : LoopInv (file :: rest) t st) :
    LoopInv rest (wrap64 (t - file.Size)) (SyncMap.Delete st file.Hash) := by
  obtain ⟨md, hmd, hsz⟩ := h.present file (List.mem_cons_self _ _)
  have hnd := List.nodup_cons.mp h.filesNodup
  have hfit := sizesFit_delete h.nodup h.fit hmd
  refine ⟨nodupKeys_delete _ h.nodup, hnd.2, ?_, ?_, hfit⟩
  · intro x hx
    obtain ⟨mx, hmx, hxs⟩ := h.present x (List.mem_cons_of_mem _ hx)
    refine ⟨mx, mem_delete.mpr ⟨hmx, ?_⟩, hxs⟩
    intro heq
    exact hnd.1 (List.mem_map.mpr ⟨x, hx, heq⟩)
  · rw [totalSize_delete h.nodup hmd, h.total_eq, hsz]
    apply wrap64_of_inInt64
    have h1 := totalSize_nonneg hfit.1
    have h2 := hfit.2
    rw [totalSize_delete h.nodup hmd, hsz] at h1 h2
    unfold inInt64
    omega

theorem evictLoop_stop (f : Faults) (maxSize : Int) (file : FileInfo) (rest : List FileInfo)
    (t : Int) (st : MetaMap) (disk : Disk) (h : t ≤ maxSize) :
    evictLoop f maxSize (file :: rest) t st disk = ⟨.ok, t, st, disk, []⟩ := by
  rw [evictLoop, if_pos h]

theorem evictLoop_panic (f : Faults) (maxSize : Int) (file : FileInfo) (rest : List FileInfo)
    (t : Int) (st : MetaMap) (disk : Disk) (h : ¬ t ≤ maxSize) (hp : blobPath file.Hash = none) :
    evictLoop f maxSize (file :: rest) t st disk = ⟨.panic, t, st, disk, []⟩ := by
  rw [evictLoop, if_neg h, hp]

theorem evictLoop_failed (f : Faults) (maxSize : Int) (file : FileInfo) (rest : List FileInfo)
    (t : Int) (st : MetaMap) (disk : Disk) (h : ¬ t ≤ maxSize) (p : Str)
    (hp : blobPath file.Hash = some p) (e : OsError) (hr : osRemove f disk p = .error e) :
    evictLoop f maxSize (file :: rest) t st disk
      = { evictLoop f maxSize rest t st disk with
          log := .failedDelete file.Hash :: (evictLoop f maxSize rest t st disk).log } := by
  rw [evictLoop, if_neg h, hp]
  simp only [hr]

theorem evictLoop_evicted (f : Faults) (maxSize : Int) (file : FileInfo) (rest : List FileInfo)
    (t : Int) (st : MetaMap) (disk : Disk) (h : ¬ t ≤ maxSize) (p : Str)
    (hp : blobPath file.Hash = some p) (disk1 : Disk) (hr : osRemove f disk p = .ok disk1) :
    evictLoop f maxSize (file :: rest) t st disk
      = { evictLoop f maxSize rest (wrap64 (t - file.Size)) (SyncMap.Delete st file.Hash) disk1 with
          log := (if f.redisErr = true then [LogLine.failedMark file.Hash] else [])
            ++ .deleted file.Hash ::
              (evictLoop f maxSize rest (wrap64 (t - file.Size))
                (SyncMap.Delete st file.Hash) disk1).log } := by
  rw [evictLoop, if_neg h, hp]
  simp only [hr]

/-- The loop keeps its invariant: on exit `totalSize` is the exact sum over the entries
that remain. -/
theorem evictLoop_total (f : Faults) (maxSize : Int) :
    ∀ (files : List FileInfo) (t : Int) (st : MetaMap) (disk : Disk), LoopInv files t st →
      (evictLoop f maxSize files t st disk).totalSize
        = totalSize (evictLoop f maxSize files t st disk).store := by
  intro files
  induction files with
  | nil => intro t st disk h; simpa [evictLoop] using h.total_eq
  | cons file rest ih =>
    intro t st disk h
    by_cases hle : t ≤ maxSize
    · rw [evictLoop_stop _ _ _ _ _ _ _ hle]; exact h.total_eq
    · cases hp : blobPath file.Hash with
      | none => rw [evictLoop_panic _ _ _ _ _ _ _ hle hp]; exact h.total_eq
      | some p =>
        cases hr : osRemove f disk p with
        | error e => rw [evictLoop_failed _ _ _ _ _ _ _ hle p hp e hr]; exact ih t st disk h.skip
        | ok disk1 => rw [evictLoop_evicted _ _ _ _ _ _ _ hle p hp disk1 hr]; exact ih _ _ _ h.evict

/-- The entries that remain are those whose digest has no "Deleted file" line. -/
theorem evictLoop_store (f : Faults) (maxSize : Int) :
    ∀ (files : List FileInfo) (t : Int) (st : MetaMap) (disk : Disk),
      (evictLoop f maxSize files t st disk).store
        = st.filter (fun e => decide (e.1 ∉ deletedHashes (evictLoop f maxSize files t st disk).log)) := by
  intro files
  induction files with
  | nil => intro t st disk; simp [evictLoop, deletedHashes]
  | cons file rest ih =>
    intro t st disk
    by_cases hle : t ≤ maxSize
    · rw [evictLoop_stop _ _ _ _ _ _ _ hle]; simp [deletedHashes]
    · cases hp : blobPath file.Hash with
      | none => rw [evictLoop_panic _ _ _ _ _ _ _ hle hp]; simp [deletedHashes]
      | some p =>
        cases hr : osRemove f disk p with
        | error e =>
          rw [evictLoop_failed _ _ _ _ _ _ _ hle p hp e hr]
          simp only [deletedHashes]
          exact ih t st disk
        | ok disk1 =>
          rw [evictLoop_evicted _ _ _ _ _ _ _ hle p hp disk1 hr]
          simp only [deletedHashes_evicted]
          rw [ih]
          unfold SyncMap.Delete
          rw [List.filter_filter]
          congr 1
          funext e
          by_cases he : e.1 = file.Hash <;> simp [he]

/-- An eviction happens only while the sum over the entries then present is above
`maxSize`. -/
theorem evictLoop_over (f : Faults) (maxSize : Int) :
    ∀ (files : List FileInfo) (t : Int) (st : MetaMap) (disk : Disk), LoopInv files t st →
      ∀ (pre : List Str) (h : Str) (post : List Str),
        deletedHashes (evictLoop f maxSize files t st disk).log = pre ++ h :: post →
          maxSize < totalSize (st.filter (fun e => decide (e.1 ∉ pre))) := by
  intro files
  induction files with
  | nil => intro t st disk _ pre h post hd; simp [evictLoop, deletedHashes] at hd
  | cons file rest ih =>
    intro t st disk hinv pre h post hd
    by_cases hle : t ≤ maxSize
    · rw [evictLoop_stop _ _ _ _ _ _ _ hle] at hd; simp [deletedHashes] at hd
    · cases hp : blobPath file.Hash with
      | none => rw [evictLoop_panic _ _ _ _ _ _ _ hle hp] at hd; simp [deletedHashes] at hd
      | some p =>
        cases hr : osRemove f disk p with
        | error e =>
          rw [evictLoop_failed _ _ _ _ _ _ _ hle p hp e hr] at hd
          simp only [deletedHashes] at hd
          exact ih t st disk hinv.skip pre h post hd
        | ok disk1 =>
          rw [evictLoop_evicted _ _ _ _ _ _ _ hle p hp disk1 hr] at hd
          simp only [deletedHashes_evicted] at hd
          cases pre with
          | nil =>
            have : st.filter (fun e => decide (e.1 ∉ ([] : List Str))) = st := by simp
            rw [this, ← hinv.total_eq]
            omega
          | cons q pre1 =>
            simp only [List.cons_append, List.cons.injEq] at hd
            have key := ih _ _ _ hinv.evict pre1 h post hd.2
            have : (SyncMap.Delete st file.Hash).filter (fun e => decide (e.1 ∉ pre1))
                = st.filter (fun e => decide (e.1 ∉ q :: pre1)) := by
              unfold SyncMap.Delete
              rw [List.filter_filter, ← hd.1]
              congr 1
              funext e
              by_cases he : e.1 = file.Hash <;> simp [he]
            rw [← this]
            exact key

/-- Without a failed removal the evicted entries are an initial segment of the candidates. -/
theorem evictLoop_initial_segment (f : Faults) (maxSize : Int) :
    ∀ (files : List FileInfo) (t : Int) (st : MetaMap) (disk : Disk),
      (∀ h, LogLine.failedDelete h ∉ (evictLoop f maxSize files t st disk).log) →
        ∃ pre suf, files = pre ++ suf ∧
          deletedHashes (evictLoop f maxSize files t st disk).log = pre.map FileInfo.Hash := by
  intro files
  induction files with
  | nil => intro t st disk _; exact ⟨[], [], rfl, by simp [evictLoop, deletedHashes]⟩
  | cons file rest ih =>
    intro t st disk hok
    by_cases hle : t ≤ maxSize
    · rw [evictLoop_stop _ _ _ _ _ _ _ hle]
      exact ⟨[], file :: rest, rfl, by simp [deletedHashes]⟩
    · cases hp : blobPath file.Hash with
      | none =>
        rw [evictLoop_panic _ _ _ _ _ _ _ hle hp]
        exact ⟨[], file :: rest, rfl, by simp [deletedHashes]⟩
      | some p =>
        cases hr : osRemove f disk p with
        | error e =>
          rw [evictLoop_failed _ _ _ _ _ _ _ hle p hp e hr] at hok
          exact absurd (List.mem_cons_self _ _) (hok file.Hash)
        | ok disk1 =>
          rw [evictLoop_evicted _ _ _ _ _ _ _ hle p hp disk1 hr] at hok ⊢
          have hok1 : ∀ h, LogLine.failedDelete h ∉
              (evictLoop f maxSize rest (wrap64 (t - file.Size))
                (SyncMap.Delete st file.Hash) disk1).log := by
            intro h hmem
            apply hok h
            apply List.mem_append_right
            exact List.mem_cons_of_mem _ hmem
          obtain ⟨pre, suf, hsplit, hdel⟩ := ih _ _ _ hok1
          refine ⟨file :: pre, suf, by rw [hsplit]; rfl, ?_⟩
          simp only [deletedHashes_evicted, List.map_cons, hdel]

/-- With keys of two bytes or more the loop does not panic. -/
theorem evictLoop_exit (f : Faults) (maxSize : Int) :
    ∀ (files : List FileInfo) (t : Int) (st : MetaMap) (disk : Disk),
      (∀ x ∈ files, 2 ≤ x.Hash.length) → (evictLoop f maxSize files t st disk).exit = .ok := by
  intro files
  induction files with
  | nil => intro t st disk _; simp [evictLoop]
  | cons file rest ih =>
    intro t st disk hlen
    have hrest : ∀ x ∈ rest, 2 ≤ x.Hash.length := fun x hx => hlen x (List.mem_cons_of_mem _ hx)
    by_cases hle : t ≤ maxSize
    · rw [evictLoop_stop _ _ _ _ _ _ _ hle]
    · cases hp : blobPath file.Hash with
      | none =>
        have := hlen file (List.mem_cons_self _ _)
        simp [blobPath, slice02, this] at hp
      | some p =>
        cases hr : osRemove f disk p with
        | error e => rw [evictLoop_failed _ _ _ _ _ _ _ hle p hp e hr]; exact ih t st disk hrest
        | ok disk1 => rw [evictLoop_evicted _ _ _ _ _ _ _ hle p hp disk1 hr]; exact ih _ _ _ hrest

/-! ## `CleanupStorage` -/

theorem rangeFiles_fold (m : MetaMap) :
    ∀ acc : Int × List FileInfo,
      m.foldl (fun acc e => (wrap64 (acc.1 + e.2.Size),
          acc.2 ++ [(⟨e.1, e.2.Size, e.2.DownloadCount⟩ : FileInfo)])) acc
        = (m.foldl (fun t e => wrap64 (t + e.2.Size)) acc.1, acc.2 ++ m.map toInfo) := by
  induction m with
  | nil => intro acc; simp
  | cons e m ih => intro acc; simp [List.foldl_cons, ih, toInfo]

theorem rangeFiles_snd (m : MetaMap) : (rangeFiles m).2 = m.map toInfo := by
  unfold rangeFiles
  rw [rangeFiles_fold]
  simp

theorem sum64_exact (m : MetaMap) :
    ∀ t : Int, 0 ≤ t → (∀ e ∈ m, 0 ≤ e.2.Size) → t + totalSize m ≤ 9223372036854775807 →
      m.foldl (fun t e => wrap64 (t + e.2.Size)) t = t + totalSize m := by
  induction m with
  | nil => intro t _ _ _; simp [totalSize]
  | cons e m ih =>
    intro t ht hs hfit
    have he := hs e (List.mem_cons_self _ _)
    have hm : ∀ x ∈ m, 0 ≤ x.2.Size := fun x hx => hs x (List.mem_cons_of_mem _ hx)
    have hmn := totalSize_nonneg hm
    rw [totalSize_cons] at hfit ⊢
    have hw : wrap64 (t + e.2.Size) = t + e.2.Size :=
      wrap64_of_inInt64 (by unfold inInt64; omega)
    rw [List.foldl_cons, hw, ih (t + e.2.Size) (by omega) hm (by omega)]
    omega

theorem rangeFiles_fst {m : MetaMap} (h : SizesFit m) : (rangeFiles m).1 = totalSize m := by
  unfold rangeFiles
  rw [rangeFiles_fold]
  simp only
  rw [sum64_exact m 0 (le_refl 0) h.1 (by have := h.2; omega)]
  omega

theorem sortSlice_perm (l : List FileInfo) : (sortSlice l).Perm l :=
  List.perm_insertionSort usageLE l

theorem sortSlice_sorted (l : List FileInfo) : (sortSlice l).Sorted usageLE :=
  List.sorted_insertionSort usageLE l

theorem loopInv_start {m : MetaMap} (hnd : NodupKeys m) (hfit : SizesFit m) :
    LoopInv (sortSlice (m.map toInfo)) (totalSize m) m := by
  refine ⟨hnd, ?_, ?_, rfl, hfit⟩
  · have hp := (sortSlice_perm (m.map toInfo)).map FileInfo.Hash
    rw [hp.nodup_iff]
    have : (m.map toInfo).map FileInfo.Hash = m.map Prod.fst := by
      simp [List.map_map, Function.comp_def, toInfo]
    rw [this]
    exact hnd
  · intro x hx
    have hx1 : x ∈ m.map toInfo := (sortSlice_perm _).mem_iff.mp hx
    obtain ⟨e, he, hxe⟩ := List.mem_map.mp hx1
    exact ⟨e.2, by rw [← hxe]; exact he, by rw [← hxe]; rfl⟩

/-- Past the first test, `CleanupStorage` returns what the loop produced, up to the flag. -/
theorem CleanupStorage_loop (f : Faults) (maxSize : Int) (store : MetaMap) (disk : Disk)
    (h : ¬ (rangeFiles store).1 ≤ maxSize) :
    (CleanupStorage f maxSize store disk).store
        = (evictLoop f maxSize (sortSlice (rangeFiles store).2) (rangeFiles store).1 store disk).store ∧
      (CleanupStorage f maxSize store disk).disk
        = (evictLoop f maxSize (sortSlice (rangeFiles store).2) (rangeFiles store).1 store disk).disk ∧
      (CleanupStorage f maxSize store disk).log
        = (evictLoop f maxSize (sortSlice (rangeFiles store).2) (rangeFiles store).1 store disk).log ∧
      (CleanupStorage f maxSize store disk).totalSize
        = (evictLoop f maxSize (sortSlice (rangeFiles store).2) (rangeFiles store).1 store disk).totalSize := by
  unfold CleanupStorage
  simp only [if_neg h]
  split
  · exact ⟨rfl, rfl, rfl, rfl⟩
  · split <;> exact ⟨rfl, rfl, rfl, rfl⟩

theorem CleanupStorage_within (f : Faults) (maxSize : Int) (store : MetaMap) (disk : Disk)
    (h : (rangeFiles store).1 ≤ maxSize) :
    CleanupStorage f maxSize store disk = ⟨.ok, (rangeFiles store).1, store, disk, []⟩ := by
  unfold CleanupStorage
  simp only [if_pos h]

/-- The entries that `CleanupStorage` leaves are those without a "Deleted file" line. -/
theorem CleanupStorage_store (f : Faults) (maxSize : Int) (store : MetaMap) (disk : Disk) :
    (CleanupStorage f maxSize store disk).store
      = store.filter (fun e => decide (e.1 ∉ deletedHashes (CleanupStorage f maxSize store disk).log)) := by
  by_cases h : (rangeFiles store).1 ≤ maxSize
  · rw [CleanupStorage_within f maxSize store disk h]
    simp [deletedHashes]
  · obtain ⟨hs, -, hl, -⟩ := CleanupStorage_loop f maxSize store disk h
    rw [hs, hl]
    exact evictLoop_store f maxSize _ _ _ _

/-- C3. For a store with unique keys, non-negative sizes and a sum inside `int64`:
every eviction of `CleanupStorage` happens while the sum of `Size` over the entries present
just before it is strictly above `maxSize`; the entries left are those of the store
without a "Deleted file" line; and when the sum is at most `maxSize` at the start the call
returns `(true, nil)` and changes neither the metadata nor the disk. -/
theorem CleanupStorage_never_over_evicts (f : Faults) (maxSize : Int) (store : MetaMap)
    (disk : Disk) (hnd : NodupKeys store) (hfit : SizesFit store) :
    (∀ (pre : List Str) (h : Str) (post : List Str),
      deletedHashes (CleanupStorage f maxSize store disk).log = pre ++ h :: post →
        maxSize < totalSize (store.filter (fun e => decide (e.1 ∉ pre)))) ∧
    (CleanupStorage f maxSize store disk).store
      = store.filter
          (fun e => decide (e.1 ∉ deletedHashes (CleanupStorage f maxSize store disk).log)) ∧
    (totalSize store ≤ maxSize →
      (CleanupStorage f maxSize store disk).exit = .ok ∧
      (CleanupStorage f maxSize store disk).store = store ∧
      (CleanupStorage f maxSize store disk).disk = disk ∧
      (CleanupStorage f maxSize store disk).log = []) := by
  refine ⟨?_, CleanupStorage_store f maxSize store disk, ?_⟩
  · intro pre h post hd
    by_cases hle : (rangeFiles store).1 ≤ maxSize
    · rw [CleanupStorage_within f maxSize store disk hle] at hd
      simp [deletedHashes] at hd
    · obtain ⟨-, -, hl, -⟩ := CleanupStorage_loop f maxSize store disk hle
      rw [hl, rangeFiles_snd, rangeFiles_fst hfit] at hd
      exact evictLoop_over f maxSize _ _ _ _ (loopInv_start hnd hfit) pre h post hd
  · intro hle
    have : (rangeFiles store).1 ≤ maxSize := by rw [rangeFiles_fst hfit]; exact hle
    rw [CleanupStorage_within f maxSize store disk this]
    exact ⟨rfl, rfl, rfl, rfl⟩

theorem CleanupStorage_never_over_evicts_witness :
    NodupKeys storeAB ∧ SizesFit storeAB ∧
      deletedHashes (CleanupStorage noFaults 10 storeAB diskAB).log = [] ++ abcDigest :: [] ∧
      (10 : Int) < totalSize (storeAB.filter (fun e => decide (e.1 ∉ ([] : List Str)))) :=
  ⟨by decide, by decide, by decide,
    (CleanupStorage_never_over_evicts noFaults 10 storeAB diskAB (by decide) (by decide)).1
      [] abcDigest [] (by decide)⟩

/-- C2. For a store with unique keys, when no removal of a blob fails (no "Failed to delete
file" line), every entry that `CleanupStorage` evicts has a `DownloadCount` at most that of
every entry it leaves. -/
theorem CleanupStorage_evicts_least_downloaded (f : Faults) (maxSize : Int) (store : MetaMap)
    (disk : Disk) (hnd : NodupKeys store)
    (hok : ∀ h, LogLine.failedDelete h ∉ (CleanupStorage f maxSize store disk).log) :
    ∀ a ∈ store, a.1 ∉ (CleanupStorage f maxSize store disk).store.map Prod.fst →
      ∀ b ∈ (CleanupStorage f maxSize store disk).store,
        a.2.DownloadCount ≤ b.2.DownloadCount := by
  intro a ha hgone b hb
  by_cases hle : (rangeFiles store).1 ≤ maxSize
  · rw [CleanupStorage_within f maxSize store disk hle] at hgone
    exact absurd (List.mem_map.mpr ⟨a, ha, rfl⟩) hgone
  · have hst := CleanupStorage_store f maxSize store disk
    obtain ⟨-, -, hl, -⟩ := CleanupStorage_loop f maxSize store disk hle
    rw [hl] at hok
    obtain ⟨pre, suf, hsplit, hdel⟩ := evictLoop_initial_segment f maxSize _ _ _ _ hok
    rw [hl, hdel] at hst
    rw [rangeFiles_snd] at hsplit
    -- the evicted entry is among the first candidates
    have ha_pre : a.1 ∈ pre.map FileInfo.Hash := by
      by_contra hnot
      apply hgone
      rw [hst]
      exact List.mem_map.mpr ⟨a, List.mem_filter.mpr ⟨ha, by simpa using hnot⟩, rfl⟩
    obtain ⟨x, hx, hxa⟩ := List.mem_map.mp ha_pre
    have hx_files : x ∈ sortSlice (store.map toInfo) := by
      rw [hsplit]; exact List.mem_append_left _ hx
    obtain ⟨a1, ha1, hxa1⟩ := List.mem_map.mp ((sortSlice_perm _).mem_iff.mp hx_files)
    have hkey : a1.1 = a.1 := by rw [← hxa, ← hxa1]; rfl
    have hval : a1.2 = a.2 :=
      nodupKeys_unique hnd (k := a.1) (by rw [← hkey]; exact ha1) ha
    have hcount : x.UsageCount = a.2.DownloadCount := by rw [← hxa1, ← hval]; rfl
    -- the entry left is among the later candidates
    rw [hst] at hb
    obtain ⟨hb_store, hb_not⟩ := List.mem_filter.mp hb
    have hb_not1 : b.1 ∉ pre.map FileInfo.Hash := by simpa using hb_not
    have hb_files : toInfo b ∈ pre ++ suf := by
      rw [← hsplit]
      exact (sortSlice_perm _).mem_iff.mpr (List.mem_map.mpr ⟨b, hb_store, rfl⟩)
    have hb_suf : toInfo b ∈ suf := by
      rcases List.mem_append.mp hb_files with h | h
      · exact absurd (List.mem_map.mpr ⟨toInfo b, h, rfl⟩) hb_not1
      · exact h
    have hsorted := sortSlice_sorted (store.map toInfo)
    rw [hsplit] at hsorted
    have hpair := (List.pairwise_append.mp hsorted).2.2 x hx (toInfo b) hb_suf
    unfold usageLE at hpair
    rw [hcount] at hpair
    exact hpair

theorem CleanupStorage_evicts_least_downloaded_witness :
    NodupKeys storeAB ∧
      (CleanupStorage noFaults 10 storeAB diskAB).log = [.deleted abcDigest] ∧
      (CleanupStorage noFaults 10 storeAB diskAB).store
        = [(emptyDigest, ⟨"b.bin".toList, 10, 0, 5, false⟩)] ∧
      (CleanupStorage noFaults 10 storeAB diskAB).disk = [(emptyPath, [])] ∧
      (0 : Int) ≤ 5 :=
  ⟨by decide, by decide, by decide, by decide,
    CleanupStorage_evicts_least_downloaded noFaults 10 storeAB diskAB (by decide)
      (by
        intro h
        rw [show (CleanupStorage noFaults 10 storeAB diskAB).log = [.deleted abcDigest] from by
          decide]
        simp)
      (abcDigest, ⟨"a.bin".toList, 10, 0, 0, false⟩) (by decide) (by decide)
      (emptyDigest, ⟨"b.bin".toList, 10, 0, 5, false⟩) (by decide)⟩

/-! ## The budget around an upload -/

theorem totalSize_store_le (m : MetaMap) (k : Str) (v : FileMetadata)
    (h : ∀ e ∈ m, 0 ≤ e.2.Size) : totalSize (SyncMap.Store m k v) ≤ totalSize m + v.Size := by
  induction m with
  | nil => simp [SyncMap.Store, totalSize]
  | cons e m ih =>
    obtain ⟨k1, v1⟩ := e
    have h1 : 0 ≤ v1.Size := h (k1, v1) (List.mem_cons_self _ _)
    have hm : ∀ x ∈ m, 0 ≤ x.2.Size := fun x hx => h x (List.mem_cons_of_mem _ hx)
    by_cases hk : k1 = k
    · simp only [SyncMap.Store, hk, if_true, totalSize_cons]
      omega
    · simp only [SyncMap.Store, hk, if_false, totalSize_cons]
      have := ih hm
      omega

/-- When `CleanupStorage` reports success the sum over the entries it leaves is at most
`maxSize`; with sliceable keys it never panics. -/
theorem CleanupStorage_budget (f : Faults) (maxSize : Int) (store : MetaMap) (disk : Disk)
    (hnd : NodupKeys store) (hfit : SizesFit store) (hkeys : SliceableKeys store) :
    (CleanupStorage f maxSize store disk).exit = .err ∨
      ((CleanupStorage f maxSize store disk).exit = .ok ∧
        totalSize (CleanupStorage f maxSize store disk).store ≤ maxSize) := by
  by_cases hle : (rangeFiles store).1 ≤ maxSize
  · rw [CleanupStorage_within f maxSize store disk hle]
    right
    exact ⟨rfl, by rw [← rangeFiles_fst hfit]; exact hle⟩
  · have hexit : (evictLoop f maxSize (sortSlice (rangeFiles store).2) (rangeFiles store).1
        store disk).exit = .ok := by
      apply evictLoop_exit
      intro x hx
      rw [rangeFiles_snd] at hx
      obtain ⟨e, he, hxe⟩ := List.mem_map.mp ((sortSlice_perm _).mem_iff.mp hx)
      rw [← hxe]
      exact hkeys e he
    have htot := evictLoop_total f maxSize (sortSlice (rangeFiles store).2) (rangeFiles store).1
      store disk (by rw [rangeFiles_snd, rangeFiles_fst hfit]; exact loopInv_start hnd hfit)
    unfold CleanupStorage
    simp only [if_neg hle, hexit]
    rw [if_neg (by decide)]
    split
    · left; rfl
    · rename_i hn
      right
      refine ⟨hexit, ?_⟩
      rw [← htot]
      omega

/-- The metadata after `handleUpload`: what `CleanupStorage` left, with at most the entry
of the uploaded file stored on top. -/
theorem handleUpload_store (now : Nat) (f : Faults) (r : Request) (s : Server) :
    (handleUpload now f r s).2.MetadataStore
        = (CleanupStorage f MaxStorageSize s.MetadataStore s.disk).store ∨
      ∃ file, r.file = some file ∧
        (handleUpload now f r s).2.MetadataStore
          = SyncMap.Store (CleanupStorage f MaxStorageSize s.MetadataStore s.disk).store
              (HashFile file.content)
              ⟨file.Filename, (file.content.length : Int), now, 0, false⟩ := by
  unfold handleUpload
  cases hc : (CleanupStorage f MaxStorageSize s.MetadataStore s.disk).exit
  · simp only [hc]
    split
    · left; rfl
    · split
      · left; rfl
      · split
        · left; rfl
        · cases hfile : r.file with
          | none => left; rfl
          | some file =>
            simp only
            split
            · left; rfl
            · split
              · left; rfl
              · left; rfl
              · right; exact ⟨file, rfl, rfl⟩
  · simp only [hc]; left; trivial
  · simp only [hc]; left; trivial

theorem uploadedSize_nonneg (r : Request) : 0 ≤ uploadedSize r := by
  unfold uploadedSize
  split
  · exact Int.ofNat_nonneg _
  · exact le_refl 0

/-- C1, as stated, fails: on a store whose sum is exactly `MaxStorageSize`,
`CleanupStorage` reports success, the upload of the three bytes `abc` is accepted, and the
sum is then above the budget. -/
theorem handleUpload_exceeds_budget :
    totalSize serverAtBudget.MetadataStore = MaxStorageSize ∧
    (CleanupStorage noFaults MaxStorageSize serverAtBudget.MetadataStore
      serverAtBudget.disk).exit = .ok ∧
    (handleUpload 0 noFaults uploadAbc serverAtBudget).1 = .http 200 none ∧
    totalSize (handleUpload 0 noFaults uploadAbc serverAtBudget).2.MetadataStore
      = MaxStorageSize + 3 ∧
    ¬ totalSize (handleUpload 0 noFaults uploadAbc serverAtBudget).2.MetadataStore
      ≤ MaxStorageSize := by
  decide

/-- C1, amended. For a store with unique sliceable keys, non-negative sizes and a sum
inside `int64`, `handleUpload` ends in one of two ways. Either `CleanupStorage` returned
its error and the upload is answered 500 with nothing ingested; or `CleanupStorage`
succeeded, the sum over the entries it left is at most `MaxStorageSize`, the handler
stored at most the entry of the uploaded file on top of them, and the sum after the
handler is at most `MaxStorageSize` plus the size of that file. -/
theorem handleUpload_budget (now : Nat) (f : Faults) (r : Request) (s : Server)
    (hnd : NodupKeys s.MetadataStore) (hfit : SizesFit s.MetadataStore)
    (hkeys : SliceableKeys s.MetadataStore) :
    ((CleanupStorage f MaxStorageSize s.MetadataStore s.disk).exit = .err ∧
      handleUpload now f r s = (.http 500 none,
        { s with MetadataStore := (CleanupStorage f MaxStorageSize s.MetadataStore s.disk).store,
                 disk := (CleanupStorage f MaxStorageSize s.MetadataStore s.disk).disk })) ∨
    ((CleanupStorage f MaxStorageSize s.MetadataStore s.disk).exit = .ok ∧
      totalSize (CleanupStorage f MaxStorageSize s.MetadataStore s.disk).store ≤ MaxStorageSize ∧
      ((handleUpload now f r s).2.MetadataStore
          = (CleanupStorage f MaxStorageSize s.MetadataStore s.disk).store ∨
        ∃ file, r.file = some file ∧
          (handleUpload now f r s).2.MetadataStore
            = SyncMap.Store (CleanupStorage f MaxStorageSize s.MetadataStore s.disk).store
                (HashFile file.content)
                ⟨file.Filename, (file.content.length : Int), now, 0, false⟩) ∧
      totalSize (handleUpload now f r s).2.MetadataStore ≤ MaxStorageSize + uploadedSize r) := by
  rcases CleanupStorage_budget f MaxStorageSize s.MetadataStore s.disk hnd hfit hkeys with
    herr | ⟨hok, hle⟩
  · left
    refine ⟨herr, ?_⟩
    unfold handleUpload
    simp only [herr]
  · right
    have hsizes : ∀ e ∈ (CleanupStorage f MaxStorageSize s.MetadataStore s.disk).store,
        0 ≤ e.2.Size := by
      intro e he
      rw [CleanupStorage_store] at he
      exact hfit.1 e (List.mem_filter.mp he).1
    have hup := uploadedSize_nonneg r
    refine ⟨hok, hle, handleUpload_store now f r s, ?_⟩
    rcases handleUpload_store now f r s with h | ⟨file, hfile, h⟩
    · rw [h]; omega
    · rw [h]
      have hst := totalSize_store_le
        (CleanupStorage f MaxStorageSize s.MetadataStore s.disk).store (HashFile file.content)
        ⟨file.Filename, (file.content.length : Int), now, 0, false⟩ hsizes
      have hsz : uploadedSize r = (file.content.length : Int) := by
        unfold uploadedSize; rw [hfile]
      rw [hsz]
      simp only at hst
      omega

theorem handleUpload_budget_witness :
    NodupKeys serverAtBudget.MetadataStore ∧ SizesFit serverAtBudget.MetadataStore ∧
      SliceableKeys serverAtBudget.MetadataStore ∧
      (((CleanupStorage noFaults MaxStorageSize serverAtBudget.MetadataStore
          serverAtBudget.disk).exit = .err ∧
        handleUpload 0 noFaults uploadAbc serverAtBudget = (.http 500 none,
          { serverAtBudget with
            MetadataStore := (CleanupStorage noFaults MaxStorageSize
              serverAtBudget.MetadataStore serverAtBudget.disk).store,
            disk := (CleanupStorage noFaults MaxStorageSize
              serverAtBudget.MetadataStore serverAtBudget.disk).disk })) ∨
      ((CleanupStorage noFaults MaxStorageSize serverAtBudget.MetadataStore
          serverAtBudget.disk).exit = .ok ∧
        totalSize (CleanupStorage noFaults MaxStorageSize serverAtBudget.MetadataStore
          serverAtBudget.disk).store ≤ MaxStorageSize ∧
        ((handleUpload 0 noFaults uploadAbc serverAtBudget).2.MetadataStore
            = (CleanupStorage noFaults MaxStorageSize serverAtBudget.MetadataStore
                serverAtBudget.disk).store ∨
          ∃ file, uploadAbc.file = some file ∧
            (handleUpload 0 noFaults uploadAbc serverAtBudget).2.MetadataStore
              = SyncMap.Store (CleanupStorage noFaults MaxStorageSize
                  serverAtBudget.MetadataStore serverAtBudget.disk).store
                  (HashFile file.content)
                  ⟨file.Filename, (file.content.length : Int), 0, 0, false⟩) ∧
        totalSize (handleUpload 0 noFaults uploadAbc serverAtBudget).2.MetadataStore
          ≤ MaxStorageSize + uploadedSize uploadAbc)) :=
  ⟨by decide, by decide, by decide,
    handleUpload_budget 0 noFaults uploadAbc serverAtBudget (by decide) (by decide) (by decide)⟩

end FileStorage
